import Mathlib

/-!
Verification of the `cfg` configuration-file parser (src/cfg_parse.c).

The C code reads characters from a `FILE*` with `fgetc`, rewinds with
`fseek(file, -n, SEEK_CUR)` (the `pushback` macro) and re-reads captured
spans with `fgets`.  We embed the stream as an immutable character list
together with a read position.  Two C stdio behaviours are modelled
exactly because the parser relies on them:
  * `fgetc` at end of file returns EOF and leaves the position unchanged;
    a subsequent `fseek(-1)` therefore rewinds one byte into the content.
  * `fseek` to a negative offset fails and leaves the position unchanged.
  * `fgets(buf, n, f)` reads at most `n - 1` characters and stops after
    the first newline.
Numbers: `strtol` (base 0: hex / octal / decimal detection, clamping to
LONG_MAX / LONG_MIN) is modelled over `Int`; `strtod` is modelled with
exact rational arithmetic (`Rat`), i.e. the mathematical value of the
accepted literal prefix, which idealises IEEE rounding.  `printf "%lf"`
is modelled as fixed-point rendering with six fractional digits.
-/

/-! ### ctype.h models (C locale) -/

def isspace (c : Char) : Bool :=
  c = ' ' || c = '\t' || c = '\n' || c = '\x0b' || c = '\x0c' || c = '\r'

def isdigit (c : Char) : Bool := '0' ≤ c && c ≤ '9'

def isalpha (c : Char) : Bool := ('a' ≤ c && c ≤ 'z') || ('A' ≤ c && c ≤ 'Z')

def isalnum (c : Char) : Bool := isalpha c || isdigit c

def tolower (c : Char) : Char :=
  if 'A' ≤ c && c ≤ 'Z' then Char.ofNat (c.toNat + 32) else c

/-- The single-quote character `'`, written numerically. -/
def quoteChar : Char := Char.ofNat 39

/-! ### The character stream (`FILE*`) -/

structure File where
  input : List Char
  pos : Nat
deriving DecidableEq

/-- The still-unread part of the stream. -/
def File.rem (f : File) : List Char := f.input.drop f.pos

/-- `fgetc`: next character, or `none` at end of file (position unchanged). -/
def fgetc (f : File) : Option Char × File :=
  match f.rem with
  | [] => (none, f)
  | c :: _ => (some c, { f with pos := f.pos + 1 })

/-- `pushback(file, n)`, i.e. `fseek(file, -n, SEEK_CUR)`: rewind `n` bytes;
a seek before the start of the file fails and leaves the position unchanged. -/
def pushback (f : File) (n : Nat) : File :=
  if n ≤ f.pos then { f with pos := f.pos - n } else f

/-- Characters read by `fgets` into a buffer of size `n + 1`: at most `n`
characters, stopping after the first newline, or at end of input. -/
def fgetsTake : Nat → List Char → List Char
  | 0, _ => []
  | _ + 1, [] => []
  | n + 1, c :: cs => if c = '\n' then [c] else c :: fgetsTake n cs

/-- `fgets(buf, size, file)`. -/
def fgets (f : File) (size : Nat) : List Char × File :=
  let s := fgetsTake (size - 1) f.rem
  (s, { f with pos := f.pos + s.length })

/-! ### strtol / strtod models (stdlib.h) -/

/-- Value of `c` as a digit in the given base (digits, then letters). -/
def digitVal (base : Nat) (c : Char) : Option Nat :=
  let v : Option Nat :=
    if isdigit c then some (c.toNat - 48)
    else if 'a' ≤ c && c ≤ 'z' then some (c.toNat - 97 + 10)
    else if 'A' ≤ c && c ≤ 'Z' then some (c.toNat - 65 + 10)
    else none
  match v with
  | some d => if d < base then some d else none
  | none => none

/-- Scan a maximal run of base-`base` digits, folding the value.
Returns (value, number of digits consumed, rest). -/
def parseDigitsAux (base : Nat) : List Char → Nat → Nat → Nat × Nat × List Char
  | [], acc, cnt => (acc, cnt, [])
  | c :: cs, acc, cnt =>
    match digitVal base c with
    | some d => parseDigitsAux base cs (acc * base + d) (cnt + 1)
    | none => (acc, cnt, c :: cs)

def parseDigits (base : Nat) (s : List Char) : Nat × Nat × List Char :=
  parseDigitsAux base s 0 0

def LONG_MAX : Int := 9223372036854775807
def LONG_MIN : Int := -9223372036854775808

/-- strtol's clamping of an out-of-range magnitude. -/
def clampLong (neg : Bool) (v : Nat) : Int :=
  if neg then max LONG_MIN (-(v : Int)) else min LONG_MAX (v : Int)

/-- `strtol(s, &endptr, 0)`: returns (value, endptr suffix). -/
def strtol (s : List Char) : Int × List Char :=
  let s1 := s.dropWhile isspace
  let neg := s1.headD ' ' = '-'
  let s2 := if s1.headD ' ' = '-' || s1.headD ' ' = '+' then s1.tail else s1
  if s2.headD ' ' = '0' then
    if (s2.tail.headD ' ' = 'x' || s2.tail.headD ' ' = 'X')
        && (digitVal 16 (s2.tail.tail.headD ' ')).isSome then
      let r := parseDigits 16 s2.tail.tail
      (clampLong neg r.1, r.2.2)
    else
      -- the leading '0' is itself a consumed octal digit
      let r := parseDigits 8 s2.tail
      (clampLong neg r.1, r.2.2)
  else
    let r := parseDigits 10 s2
    if r.2.1 = 0 then (0, s) else (clampLong neg r.1, r.2.2)

/-- Decimal significand `D* [. D*]` (at least one digit in total);
returns (value, rest) or `none` on no conversion. -/
def strtodSig (s : List Char) : Option (Rat × List Char) :=
  let i := parseDigits 10 s
  let hasDot := i.2.2.headD ' ' = '.'
  let fr := if hasDot then parseDigits 10 i.2.2.tail else (0, 0, i.2.2)
  if i.2.1 + fr.2.1 = 0 then none
  else some ((i.1 : Rat) + (fr.1 : Rat) / (10 : Rat) ^ fr.2.1, fr.2.2)

/-- Optional decimal exponent `e±D+`; not consumed when no digit follows. -/
def strtodExp (v : Rat) (r : List Char) : Rat × List Char :=
  if r.headD ' ' = 'e' || r.headD ' ' = 'E' then
    let t := r.tail
    let eneg := t.headD ' ' = '-'
    let t2 := if t.headD ' ' = '-' || t.headD ' ' = '+' then t.tail else t
    let e := parseDigits 10 t2
    if e.2.1 = 0 then (v, r)
    else (if eneg then v / (10 : Rat) ^ e.1 else v * (10 : Rat) ^ e.1, e.2.2)
  else (v, r)

/-- Hexadecimal significand `H* [. H*]` after a consumed `0x` prefix. -/
def strtodHexSig (s : List Char) : Option (Rat × List Char) :=
  let i := parseDigits 16 s
  let hasDot := i.2.2.headD ' ' = '.'
  let fr := if hasDot then parseDigits 16 i.2.2.tail else (0, 0, i.2.2)
  if i.2.1 + fr.2.1 = 0 then none
  else some ((i.1 : Rat) + (fr.1 : Rat) / (16 : Rat) ^ fr.2.1, fr.2.2)

/-- Optional binary exponent `p±D+` of a hexadecimal floating literal. -/
def strtodHexExp (v : Rat) (r : List Char) : Rat × List Char :=
  if r.headD ' ' = 'p' || r.headD ' ' = 'P' then
    let t := r.tail
    let eneg := t.headD ' ' = '-'
    let t2 := if t.headD ' ' = '-' || t.headD ' ' = '+' then t.tail else t
    let e := parseDigits 10 t2
    if e.2.1 = 0 then (v, r)
    else (if eneg then v / (2 : Rat) ^ e.1 else v * (2 : Rat) ^ e.1, e.2.2)
  else (v, r)

/-- `strtod(s, &endptr)` with the exact rational value of the accepted
prefix: returns (value, endptr suffix). -/
def strtod (s : List Char) : Rat × List Char :=
  let s1 := s.dropWhile isspace
  let neg := s1.headD ' ' = '-'
  let s2 := if s1.headD ' ' = '-' || s1.headD ' ' = '+' then s1.tail else s1
  let conv : Option (Rat × List Char) :=
    if s2.headD ' ' = '0' && (s2.tail.headD ' ' = 'x' || s2.tail.headD ' ' = 'X') then
      match strtodHexSig s2.tail.tail with
      | some vr => some (strtodHexExp vr.1 vr.2)
      | none => some (0, s2.tail)   -- "0x" with no hex digit: only the "0" converts
    else
      match strtodSig s2 with
      | some vr => some (strtodExp vr.1 vr.2)
      | none => none
  match conv with
  | some vr => (if neg then -vr.1 else vr.1, vr.2)
  | none => (0, s)

/-! ### printf rendering models -/

def digitChar (n : Nat) : Char := Char.ofNat (48 + n)

def natDigitsAux : Nat → Nat → List Char
  | 0, _ => []
  | fuel + 1, n =>
    if n < 10 then [digitChar n] else natDigitsAux fuel (n / 10) ++ [digitChar (n % 10)]

/-- Decimal digits of a natural number (no leading zero; "0" for zero). -/
def natDigits (n : Nat) : List Char := natDigitsAux (n + 1) n

/-- `printf "%ld"`. -/
def printLong (n : Int) : List Char :=
  if n < 0 then '-' :: natDigits (-n).toNat else natDigits n.toNat

/-- Fraction part of `%lf`: exactly six digits, zero padded. -/
def pad6 (n : Int) : List Char :=
  let ds := natDigits n.toNat
  List.replicate (6 - ds.length) '0' ++ ds

/-- `printf "%lf"` (six fractional digits, rounding to nearest) for the
non-negative rationals the parser can produce. -/
def printDouble (q : Rat) : List Char :=
  let m := (q * 1000000 + 1 / 2).floor
  printLong (m / 1000000) ++ '.' :: pad6 (m % 1000000)

/-! ### Data model (cfg_parse.h) -/

inductive PrimitiveValue where
  | Number (n : Int)
  | Decimal (d : Rat)
  | String (s : List Char)
deriving DecidableEq

inductive Value where
  | Primitive (p : PrimitiveValue)
  | Array (a : List PrimitiveValue)
deriving DecidableEq

/-- One `key = value` entry.  `Ty` is the C `Type` tag (`PRIMITIVE_TYPE`
or `ARRAY_TYPE`); the parser always sets it consistently with `Val`. -/
structure ConfigEntry where
  Key : List Char
  Ty : Int
  Val : Value
deriving DecidableEq

/-- The document: entry count and the entry chain (without the trailing
sentinel node of the C linked list). -/
structure Config where
  Entries : Nat
  Items : List ConfigEntry
deriving DecidableEq

def NULL_TYPE : Int := 0
def NUMBER_TYPE : Int := 1
def DECIMAL_TYPE : Int := 2
def STRING_TYPE : Int := 3
def ARRAY_TYPE : Int := 4
def PRIMITIVE_TYPE : Int := 5

def FILE_NO_ACCESS : Int := -1
def OUT_OF_MEMORY : Int := -2
def UNEXPECTED_EOF : Int := -3
def UNEXPECTED_TOKEN : Int := -4
def INVALID_CONFIG_KEY : Int := -5
def INVALID_ARRAY_ELEMENT : Int := -6
def INVALID_INTEGER_LITERAL : Int := -7
def INVALID_DECIMAL_LITERAL : Int := -8

/-! ### Lexical helpers (cfg_parse.c) -/

/-- `ParseComment`: consume through the next newline or EOF. -/
def commentRun : List Char → Nat
  | [] => 0
  | c :: cs => if c = '\n' then 1 else commentRun cs + 1

def ParseComment (f : File) : File := { f with pos := f.pos + commentRun f.rem }

def IsSpecialSymbol (c : Char) : Bool := c = '$' || c = '.' || c = '_'

/-- `expect`: read one character, compare with `c`. -/
def expect (f : File) (c : Char) : Int × File :=
  let r := fgetc f
  if r.1 = some c then (1, r.2) else (-1, r.2)

/-- `consumeLetter`: read one character, require it alphabetic. -/
def consumeLetter (f : File) : Int × File :=
  let r := fgetc f
  match r.1 with
  | some c => if isalpha c then (1, r.2) else (-1, r.2)
  | none => (-1, r.2)

/-- Length of the whitespace run at the head of the remaining input. -/
def spaceRun : List Char → Nat
  | [] => 0
  | c :: cs => if isspace c then spaceRun cs + 1 else 0

/-- `consumeSpace`: skip whitespace; the loop ends with `fgetc` followed
by `pushback(1)`, so hitting EOF rewinds one byte into the content. -/
def consumeSpace (f : File) : File :=
  let k := spaceRun f.rem
  if f.pos + k < f.input.length then { f with pos := f.pos + k }
  else pushback { f with pos := f.pos + k } 1

/-! ### Token parsers -/

/-- Length of the identifier-tail run (alphanumeric or `$` `.` `_`). -/
def keyRun : List Char → Nat
  | [] => 0
  | c :: cs => if isalnum c || IsSpecialSymbol c then keyRun cs + 1 else 0

/-- `ParseString`: one alphabetic character, then the identifier tail; the
scan counts `len` characters, rewinds, and re-reads them with `fgets`. -/
def ParseString (f : File) : Option (List Char) × File :=
  let r := consumeLetter f
  if r.1 < 0 then (none, r.2)
  else
    let f1 := r.2
    let k := keyRun f1.rem
    let len := 1 + k
    let f2 :=
      if f1.pos + k < f1.input.length then { f1 with pos := f1.pos + k }
      else pushback { f1 with pos := f1.pos + k } 1
    let f3 := pushback f2 len
    let g := fgets f3 (len + 1)
    (some g.1, g.2)

/-- Characters before the closing quote, or `none` if EOF comes first. -/
def quoteRun : List Char → Option Nat
  | [] => none
  | c :: cs => if c = quoteChar then some 0 else (quoteRun cs).map (· + 1)

/-- `ParseQuotedString` (opening quote already consumed): scan to the
closing quote, rewind over content and quote, re-read the content with
`fgets`, then `fgetc` once to drop the closing quote. -/
def ParseQuotedString (f : File) : Int × Option (List Char) × File :=
  match quoteRun f.rem with
  | none => (UNEXPECTED_EOF, none, { f with pos := f.input.length })
  | some len =>
    let f1 : File := { f with pos := f.pos + len + 1 }
    let f2 := pushback f1 (len + 1)
    let g := fgets f2 (len + 1)
    let r := fgetc g.2
    (1, some g.1, r.2)

def IsHexDigit (c : Char) : Bool :=
  tolower c = 'a' || tolower c = 'b' || tolower c = 'c' ||
  tolower c = 'd' || tolower c = 'e' || tolower c = 'f'

/-- One step of the numeric scan set: digits, hex letters, `x`/`X`. -/
def isNumChar (c : Char) : Bool :=
  isdigit c || IsHexDigit c || c = 'x' || c = 'X'

/-- Scan of `ParseGenericNumber`: length of the captured literal and the
`is_float` flag; `none` when `fgetc` returns EOF during the scan.
`firstDot` is true while no decimal point has been consumed. -/
def numRun (firstDot : Bool) : List Char → Option (Nat × Bool)
  | [] => none
  | c :: cs =>
    if isNumChar c then (numRun firstDot cs).map (fun p => (p.1 + 1, p.2))
    else if c = '.' && firstDot then (numRun false cs).map (fun p => (p.1 + 1, true))
    else some (0, false)

/-- `ParseGenericNumber`: scan the literal, rewind, re-read it with
`fgets`, then convert with `strtod` / `strtol` (base 0); a non-empty
endptr yields the invalid-literal errors.  EOF during the scan yields
`UNEXPECTED_TOKEN`. -/
def ParseGenericNumber (f : File) : Int × Option PrimitiveValue × File :=
  match numRun true f.rem with
  | none => (UNEXPECTED_TOKEN, none, { f with pos := f.input.length })
  | some (len, isFloat) =>
    let f1 : File := { f with pos := f.pos + len }
    let f2 := pushback f1 len
    let g := fgets f2 (len + 1)
    if isFloat then
      let r := strtod g.1
      if r.2 ≠ [] then (INVALID_DECIMAL_LITERAL, some (.Decimal r.1), g.2)
      else (1, some (.Decimal r.1), g.2)
    else
      let r := strtol g.1
      if r.2 ≠ [] then (INVALID_INTEGER_LITERAL, some (.Number r.1), g.2)
      else (1, some (.Number r.1), g.2)

/-- `ParseValue`: dispatch on one character: quote, digit, or error.
On failure the C value struct holds no meaningful payload: `none`. -/
def ParseValue (f : File) : Int × Option PrimitiveValue × File :=
  match fgetc f with
  | (none, f1) => (UNEXPECTED_EOF, none, f1)
  | (some ch, f1) =>
    if ch = quoteChar then
      let r := ParseQuotedString f1
      (r.1, r.2.1.map .String, r.2.2)
    else if isdigit ch then ParseGenericNumber (pushback f1 1)
    else (UNEXPECTED_TOKEN, none, f1)

/-- The `ParseVector` loop.  `more` is the C `more` flag (an element is
required next); `acc` the elements parsed so far.  `fuel` bounds the
number of iterations: `none` models non-termination of the C loop
(which is real, e.g. on `[1,` followed by EOF). -/
def ParseVectorLoop : Nat → File → Bool → List PrimitiveValue →
    Option (Int × List PrimitiveValue × File)
  | 0, _, _, _ => none
  | fuel + 1, f, more, acc =>
    let f1 := consumeSpace f
    match fgetc f1 with
    | (none, f2) => some (UNEXPECTED_EOF, acc, f2)
    | (some ch, f2) =>
      if ch = ']' then some (1, acc, f2)
      else if ch = ',' then ParseVectorLoop fuel f2 true acc
      else if !more then some (UNEXPECTED_TOKEN, acc, f2)
      else
        let f3 := pushback f2 1
        let r := ParseValue f3
        if r.1 < 0 then some (INVALID_ARRAY_ELEMENT, acc, r.2.2)
        else ParseVectorLoop fuel r.2.2 false (acc ++ r.2.1.toList)

/-- `ParseVector` (opening `[` already consumed). -/
def ParseVector (fuel : Nat) (f : File) : Option (Int × List PrimitiveValue × File) :=
  ParseVectorLoop fuel f true []

/-! ### Statement parser and document builder -/

/-- `ParseConfigLine`: `key = (array | value) ;`.  Note that the `;`
terminator is checked even when the value parse failed, and a missing
`;` masks the value's error with `UNEXPECTED_TOKEN`. -/
def ParseConfigLine (fuel : Nat) (f : File) : Option (Int × Option ConfigEntry × File) :=
  match ParseString f with
  | (none, f1) => some (INVALID_CONFIG_KEY, none, f1)
  | (some key, f1) =>
    let f2 := consumeSpace f1
    let e1 := expect f2 '='
    if e1.1 < 0 then some (UNEXPECTED_TOKEN, none, e1.2) else
    let f4 := consumeSpace e1.2
    match fgetc f4 with
    | (none, f5) => some (UNEXPECTED_EOF, none, f5)
    | (some ch, f5) =>
      let step : Option (Int × Int × Option Value × File) :=
        if ch = '[' then
          (ParseVector fuel f5).map (fun r => (r.1, ARRAY_TYPE, some (Value.Array r.2.1), r.2.2))
        else
          let r := ParseValue (pushback f5 1)
          some (r.1, PRIMITIVE_TYPE, r.2.1.map .Primitive, r.2.2)
      step.bind (fun r =>
        let f7 := consumeSpace r.2.2.2
        let e2 := expect f7 ';'
        if e2.1 < 0 then some (UNEXPECTED_TOKEN, none, e2.2)
        else some (r.1, (if 0 ≤ r.1 then (r.2.2.1.map (fun v => ⟨key, r.2.1, v⟩)) else none), e2.2))

/-- Space–but–not-newline run skipped by the `ParseCfg` loop. -/
def blankRun : List Char → Nat
  | [] => 0
  | c :: cs => if isspace c && c ≠ '\n' then blankRun cs + 1 else 0

/-- `ParseCfg`: one statement: newline, comment, or config line; any
other first character is `UNEXPECTED_TOKEN` (so `INVALID_CONFIG_KEY`
is unreachable from here). -/
def ParseCfg (fuel : Nat) (f : File) : Option (Int × Option ConfigEntry × File) :=
  let f0 : File := { f with pos := f.pos + blankRun f.rem }
  match fgetc f0 with
  | (none, f1) => some (UNEXPECTED_EOF, none, f1)
  | (some c, f1) =>
    if c = '\n' then some (1, none, f1)
    else if c = '#' then some (1, none, ParseComment f1)
    else if isalpha c then
      (ParseConfigLine fuel (pushback f1 1)).map (fun r =>
        if r.1 < 0 then (r.1, none, r.2.2) else (1, r.2.1, r.2.2))
    else some (UNEXPECTED_TOKEN, none, f1)

/-- The `ParseConfig` loop: skip whitespace, stop at EOF, parse one
statement, append its entry (if any) and bump the count.  A failing
statement aborts the whole build: the error is returned and no document
(`none`) is handed back (the C code frees it). -/
def ParseConfigLoop : Nat → File → List ConfigEntry → Nat → Option (Int × Option Config)
  | 0, _, _, _ => none
  | fuel + 1, f, acc, cnt =>
    let f0 : File := { f with pos := f.pos + spaceRun f.rem }
    match fgetc f0 with
    | (none, _) => some (1, some ⟨cnt, acc⟩)
    | (some _, f1) =>
      match ParseCfg fuel (pushback f1 1) with
      | none => none
      | some (st, e, f2) =>
        if st < 0 then some (st, none)
        else ParseConfigLoop fuel f2 (acc ++ e.toList) (cnt + (if e.isSome then 1 else 0))

/-- `ParseConfig` on the contents of an already-opened file. -/
def ParseConfig (fuel : Nat) (input : List Char) : Option (Int × Option Config) :=
  ParseConfigLoop fuel ⟨input, 0⟩ [] 0

/-! ### Serializer and accessors -/

/-- `PrintPrimitive`. -/
def PrintPrimitive : PrimitiveValue → List Char
  | .Number n => printLong n
  | .Decimal d => printDouble d
  | .String s => quoteChar :: (s ++ [quoteChar])

/-- The element loop of `PrintVector`: each element, with a `,` after
every element except the last. -/
def printElems : List PrimitiveValue → List Char
  | [] => []
  | [v] => PrintPrimitive v
  | v :: vs => PrintPrimitive v ++ ',' :: printElems vs

/-- `PrintVector`: `[v1,v2,...]`, no interior whitespace, no trailing comma. -/
def PrintVector (vs : List PrimitiveValue) : List Char :=
  '[' :: (printElems vs ++ [']'])

/-- The value text of one entry.  The C code dispatches on the `Type` tag
and dereferences the matching union member; the branch where tag and
payload disagree reads garbage and is modelled as `[]`. -/
def DumpVal (e : ConfigEntry) : List Char :=
  if e.Ty = PRIMITIVE_TYPE then
    (match e.Val with | .Primitive p => PrintPrimitive p | .Array _ => [])
  else
    (match e.Val with | .Array a => PrintVector a | .Primitive _ => [])

/-- One line of `DumpConfig`: `key = value;\n`. -/
def DumpEntry (e : ConfigEntry) : List Char :=
  e.Key ++ ' ' :: '=' :: ' ' :: (DumpVal e ++ [';', '\n'])

/-- `DumpConfig`: the first `Entries` entries of the chain, in order. -/
def DumpConfig (c : Config) : List Char :=
  ((c.Items.take c.Entries).map DumpEntry).flatten

/-- The `FindValue` scan: at most `n` entries of the chain. -/
def FindValueAux : List ConfigEntry → Nat → Int → List Char → Option Value
  | _, 0, _, _ => none
  | [], _ + 1, _, _ => none
  | e :: rest, n + 1, ty, key =>
    if e.Key = key ∧ e.Ty = ty then some e.Val else FindValueAux rest n ty key

/-- `FindValue(config, ty, Key)`: linear scan over `Entries` entries. -/
def FindValue (config : Config) (ty : Int) (key : List Char) : Option Value :=
  FindValueAux config.Items config.Entries ty key

/-- `GetElement(v, idx)`: bounds-checked element access. -/
def GetElement (v : List PrimitiveValue) (idx : Nat) : Option PrimitiveValue :=
  if v.length ≤ idx then none else v.get? idx

/-- `ErrToString`. -/
def ErrToString (status : Int) : List Char :=
  if status = FILE_NO_ACCESS then "Config file inaccessible".toList
  else if status = OUT_OF_MEMORY then "Out of memory".toList
  else if status = UNEXPECTED_EOF then "Unexpected End Of File while parsing".toList
  else if status = UNEXPECTED_TOKEN then "Unexpected token while parsing".toList
  else if status = INVALID_CONFIG_KEY then "Configuration key must be a string".toList
  else if status = INVALID_ARRAY_ELEMENT then
    "Array elements must follow this syntax: [ele1 , ele2, ...]".toList
  else if status = INVALID_INTEGER_LITERAL then "Invalid integer literal".toList
  else if status = INVALID_DECIMAL_LITERAL then "Invalid floating point literal".toList
  else "Unknown error.".toList

/-! ### Well-formedness of parsed documents (used to state round-trip) -/

/-- A valid configuration key: alphabetic first character, then
alphanumeric or `$` `.` `_`. -/
def WfKey (k : List Char) : Bool :=
  match k with
  | [] => false
  | c :: cs => isalpha c && (isalnum c || IsSpecialSymbol c) &&
      cs.all (fun d => isalnum d || IsSpecialSymbol d)

/-- A primitive value as the parser can produce it: integers are
non-negative and within `long` range, strings contain a newline at most
as their final character (a consequence of `fgets`), and are quote-free
(a requirement of the round-trip claim). -/
def WfPrim : PrimitiveValue → Bool
  | .Number n => 0 ≤ n && n ≤ LONG_MAX
  | .Decimal q => 0 ≤ q && (q * 1000000).den = 1
  | .String s => s.all (fun c => c ≠ quoteChar) && s.dropLast.all (fun c => c ≠ '
')

def WfEntry (e : ConfigEntry) : Bool :=
  WfKey e.Key &&
    (match e.Val with
     | .Primitive p => e.Ty = PRIMITIVE_TYPE && WfPrim p
     | .Array vs => e.Ty = ARRAY_TYPE && vs.all WfPrim)

def WfConfig (c : Config) : Bool :=
  c.Entries = c.Items.length && c.Items.all WfEntry

/-- Enough fuel to reparse the dump of a list of entries: one unit per
statement plus the iterations of each array loop. -/
def needFuel : List ConfigEntry → Nat
  | [] => 1
  | e :: es =>
    needFuel es + 1 + (match e.Val with | .Array a => 2 * a.length + 1 | _ => 0)

/-- The decimal value of a digit string (used to state what `Integer(N)`
means for a numeric literal `N`). -/
def natOfDigits (s : List Char) : Nat :=
  s.foldl (fun a c => a * 10 + (c.toNat - 48)) 0

/-! ### Character-level bridge lemmas -/

theorem isdigit_toNat {c : Char} (h : isdigit c = true) : 48 ≤ c.toNat ∧ c.toNat ≤ 57 := by
  simp [isdigit, Char.le_def] at h
  exact h

theorem ne_of_toNat_ne {c d : Char} (h : c.toNat ≠ d.toNat) : c ≠ d := fun he => h (by rw [he])

theorem isspace_toNat_le {c : Char} (h : isspace c = true) : c.toNat ≤ 32 := by
  simp [isspace] at h
  rcases h with ((((h | h) | h) | h) | h) | h <;> subst h <;> decide

theorem isalpha_toNat {c : Char} (h : isalpha c = true) :
    (97 ≤ c.toNat ∧ c.toNat ≤ 122) ∨ (65 ≤ c.toNat ∧ c.toNat ≤ 90) := by
  simp [isalpha, Char.le_def] at h
  exact h

theorem isalnum_toNat {c : Char} (h : isalnum c = true) : 48 ≤ c.toNat ∧ c.toNat ≤ 122 := by
  simp [isalnum] at h
  rcases h with h | h
  · rcases isalpha_toNat h with ⟨h1, h2⟩ | ⟨h1, h2⟩ <;> omega
  · rcases isdigit_toNat h with ⟨h1, h2⟩
    omega

theorem special_toNat {c : Char} (h : IsSpecialSymbol c = true) :
    c.toNat = 36 ∨ c.toNat = 46 ∨ c.toNat = 95 := by
  simp [IsSpecialSymbol] at h
  rcases h with (h | h) | h <;> subst h <;> decide

theorem isspace_of_digit {c : Char} (h : isdigit c = true) : isspace c = false := by
  cases hb : isspace c
  · rfl
  · exact absurd (isdigit_toNat h).1 (by have := isspace_toNat_le hb; omega)

theorem isspace_of_alpha {c : Char} (h : isalpha c = true) : isspace c = false := by
  cases hb : isspace c
  · rfl
  · have := isspace_toNat_le hb
    rcases isalpha_toNat h with ⟨h1, _⟩ | ⟨h1, _⟩ <;> omega

theorem isNumChar_of_digit {c : Char} (h : isdigit c = true) : isNumChar c = true := by
  simp [isNumChar, h]

/-! ### Stream-position helper lemmas -/

theorem rem_mk (inp : List Char) (p : Nat) : (File.mk inp p).rem = inp.drop p := rfl

theorem drop_split {inp X Y : List Char} {p : Nat} (h : inp.drop p = X ++ Y) :
    inp.drop (p + X.length) = Y := by
  have h2 : (inp.drop p).drop X.length = Y := by rw [h, List.drop_left]
  rw [List.drop_drop] at h2
  exact h2

theorem drop_lt_length {inp X Y : List Char} {p : Nat} (h : inp.drop p = X ++ Y)
    (hY : Y ≠ []) : p + X.length < inp.length := by
  have h2 := drop_split h
  have h3 : (inp.drop (p + X.length)).length = inp.length - (p + X.length) :=
    List.length_drop _ _
  rw [h2] at h3
  have : 0 < Y.length := List.length_pos.mpr hY
  omega

/-! ### Scanning-run lemmas -/

theorem spaceRun_stop {r : List Char} (hr : isspace (r.headD 'x') = false) :
    spaceRun r = 0 := by
  cases r with
  | nil => rfl
  | cons c cs => simp only [List.headD] at hr; simp [spaceRun, hr]

theorem spaceRun_append {a : List Char} (ha : ∀ c ∈ a, isspace c = true)
    {r : List Char} (hr : isspace (r.headD 'x') = false) :
    spaceRun (a ++ r) = a.length := by
  induction a with
  | nil => simpa using spaceRun_stop hr
  | cons c cs ih =>
    have hc := ha c (by simp)
    simp only [List.cons_append, spaceRun, hc, if_pos, List.length_cons]
    simpa using ih (fun d hd => ha d (by simp [hd]))

theorem keyRun_stop {r : List Char}
    (hr : (isalnum (r.headD ' ') || IsSpecialSymbol (r.headD ' ')) = false) :
    keyRun r = 0 := by
  cases r with
  | nil => rfl
  | cons c cs => simp only [List.headD] at hr; simp [keyRun, hr]

theorem keyRun_append {a : List Char} (ha : ∀ c ∈ a, (isalnum c || IsSpecialSymbol c) = true)
    {r : List Char} (hr : (isalnum (r.headD ' ') || IsSpecialSymbol (r.headD ' ')) = false) :
    keyRun (a ++ r) = a.length := by
  induction a with
  | nil => simpa using keyRun_stop hr
  | cons c cs ih =>
    have hc := ha c (by simp)
    simp only [List.cons_append, keyRun, hc, if_pos, List.length_cons]
    simpa using ih (fun d hd => ha d (by simp [hd]))

theorem blankRun_stop {r : List Char}
    (hr : (isspace (r.headD '\n') && r.headD '\n' ≠ '\n') = false) :
    blankRun r = 0 := by
  cases r with
  | nil => rfl
  | cons c cs =>
    simp only [List.headD] at hr
    simp only [blankRun]
    rw [if_neg]
    simp only [Bool.and_eq_true, decide_eq_true_eq] at hr ⊢
    intro hc
    simp [hc.1, hc.2] at hr

theorem quoteRun_none {l : List Char} (h : ∀ c ∈ l, c ≠ quoteChar) : quoteRun l = none := by
  induction l with
  | nil => rfl
  | cons c cs ih =>
    simp only [quoteRun, if_neg (h c (by simp))]
    rw [ih (fun d hd => h d (by simp [hd]))]
    rfl

theorem quoteRun_append {s : List Char} (hs : ∀ c ∈ s, c ≠ quoteChar) (r : List Char) :
    quoteRun (s ++ quoteChar :: r) = some s.length := by
  induction s with
  | nil => simp [quoteRun]
  | cons c cs ih =>
    simp only [List.cons_append, List.append_eq, quoteRun, if_neg (hs c (by simp)),
      List.length_cons]
    rw [ih (fun d hd => hs d (by simp [hd]))]
    rfl

theorem fgetsTake_full {l : List Char} (h : ∀ c ∈ l.dropLast, c ≠ '\n') (r : List Char) :
    fgetsTake l.length (l ++ r) = l := by
  induction l with
  | nil => rfl
  | cons c cs ih =>
    cases cs with
    | nil =>
      simp only [List.length, List.cons_append, List.nil_append, fgetsTake]
      split
      · next hc => rw [hc]
      · rfl
    | cons d ds =>
      have hc : c ≠ '\n' := h c (by simp)
      have h2 := ih (fun x hx => h x (by simpa using Or.inr hx))
      simp only [List.length_cons, List.cons_append, List.append_eq, fgetsTake,
        if_neg hc] at h2 ⊢
      rw [h2]

/-! ### Numeric-scan and conversion lemmas -/

theorem numRun_stop {c : Char} (h1 : isNumChar c = false) (h2 : c ≠ '.') (b : Bool)
    (r : List Char) : numRun b (c :: r) = some (0, false) := by
  simp [numRun, h1, h2]

theorem numRun_stop_false {c : Char} (h1 : isNumChar c = false) (r : List Char) :
    numRun false (c :: r) = some (0, false) := by
  simp [numRun, h1]

theorem numRun_digits {a : List Char} (ha : ∀ c ∈ a, isdigit c = true) (b : Bool)
    (l : List Char) :
    numRun b (a ++ l) = (numRun b l).map (fun p => (p.1 + a.length, p.2)) := by
  induction a with
  | nil =>
    cases hn : numRun b l with
    | none => simp [hn]
    | some p => simp [hn]
  | cons c cs ih =>
    have hc := isNumChar_of_digit (ha c (by simp))
    simp only [List.cons_append, List.append_eq, numRun, hc, if_pos]
    rw [ih (fun d hd => ha d (by simp [hd]))]
    cases hn : numRun b l with
    | none => simp
    | some p => simp [List.length_cons]; omega

theorem digitVal_digit {c : Char} (h : isdigit c = true) :
    digitVal 10 c = some (c.toNat - 48) := by
  have hr := isdigit_toNat h
  simp only [digitVal, h, if_pos]
  have : c.toNat - 48 < 10 := by omega
  simp [this]

theorem foldl_digits_acc (s : List Char) (acc : Nat) :
    s.foldl (fun a c => a * 10 + (c.toNat - 48)) acc =
      acc * 10 ^ s.length + natOfDigits s := by
  induction s generalizing acc with
  | nil => simp [natOfDigits]
  | cons c cs ih =>
    simp only [List.foldl_cons, natOfDigits, List.length_cons]
    rw [ih (acc * 10 + (c.toNat - 48)), ih (0 * 10 + (c.toNat - 48))]
    ring

theorem parseDigitsAux_digits {a : List Char} (ha : ∀ c ∈ a, isdigit c = true)
    {r : List Char} (hr : digitVal 10 (r.headD ' ') = none) (acc cnt : Nat) :
    parseDigitsAux 10 (a ++ r) acc cnt =
      (a.foldl (fun x c => x * 10 + (c.toNat - 48)) acc, cnt + a.length, r) := by
  induction a generalizing acc cnt with
  | nil =>
    cases r with
    | nil => simp [parseDigitsAux]
    | cons c cs =>
      simp only [List.headD] at hr
      simp [parseDigitsAux, hr]
  | cons c cs ih =>
    have hd := digitVal_digit (ha c (by simp))
    simp only [List.cons_append, List.append_eq, parseDigitsAux, hd, List.foldl_cons,
      List.length_cons]
    rw [ih (fun d hdm => ha d (by simp [hdm]))]
    simp; omega

theorem parseDigits_digits {a : List Char} (ha : ∀ c ∈ a, isdigit c = true)
    {r : List Char} (hr : digitVal 10 (r.headD ' ') = none) :
    parseDigits 10 (a ++ r) = (natOfDigits a, a.length, r) := by
  simp [parseDigits, parseDigitsAux_digits ha hr, natOfDigits]

theorem digitChar_toNat {n : Nat} (h : n < 10) : (digitChar n).toNat = 48 + n := by
  interval_cases n <;> decide

theorem isdigit_digitChar {n : Nat} (h : n < 10) : isdigit (digitChar n) = true := by
  interval_cases n <;> decide

theorem natOfDigits_append_single (a : List Char) (c : Char) :
    natOfDigits (a ++ [c]) = natOfDigits a * 10 + (c.toNat - 48) := by
  simp [natOfDigits, List.foldl_append]

theorem natDigitsAux_spec :
    ∀ fuel n, n < fuel →
      (∀ c ∈ natDigitsAux fuel n, isdigit c = true) ∧
      natOfDigits (natDigitsAux fuel n) = n ∧
      natDigitsAux fuel n ≠ [] := by
  intro fuel
  induction fuel with
  | zero => intro n hn; omega
  | succ fuel ih =>
    intro n hn
    by_cases h10 : n < 10
    · refine ⟨?_, ?_, ?_⟩ <;> simp [natDigitsAux, h10, isdigit_digitChar, natOfDigits,
        digitChar_toNat]
    · have hd : n / 10 < fuel := by
        have := Nat.div_lt_self (by omega : 0 < n) (by omega : 1 < 10)
        omega
      obtain ⟨ihd, ihv, ihn⟩ := ih (n / 10) hd
      refine ⟨?_, ?_, ?_⟩
      · intro c hc
        simp only [natDigitsAux, if_neg h10, List.mem_append, List.mem_singleton] at hc
        rcases hc with hc | hc
        · exact ihd c hc
        · subst hc; exact isdigit_digitChar (by omega)
      · simp only [natDigitsAux, if_neg h10]
        rw [natOfDigits_append_single, ihv, digitChar_toNat (by omega : n % 10 < 10)]
        omega
      · simp [natDigitsAux, if_neg h10]

theorem natDigits_digits (n : Nat) : ∀ c ∈ natDigits n, isdigit c = true :=
  (natDigitsAux_spec (n + 1) n (by omega)).1

theorem natOfDigits_natDigits (n : Nat) : natOfDigits (natDigits n) = n :=
  (natDigitsAux_spec (n + 1) n (by omega)).2.1

theorem natDigits_ne_nil (n : Nat) : natDigits n ≠ [] :=
  (natDigitsAux_spec (n + 1) n (by omega)).2.2

theorem natDigitsAux_head :
    ∀ fuel n, n < fuel → 0 < n → (natDigitsAux fuel n).headD ' ' ≠ '0' := by
  intro fuel
  induction fuel with
  | zero => intro n hn; omega
  | succ fuel ih =>
    intro n hn hpos
    by_cases h10 : n < 10
    · simp only [natDigitsAux, if_pos h10, List.headD]
      exact ne_of_toNat_ne (by rw [digitChar_toNat h10]; simp [show ('0').toNat = 48 by decide]
                               ; omega)
    · have hd : n / 10 < fuel := by
        have := Nat.div_lt_self (by omega : 0 < n) (by omega : 1 < 10)
        omega
      have hdpos : 0 < n / 10 := Nat.div_pos (by omega) (by omega)
      have hne := (natDigitsAux_spec fuel (n / 10) hd).2.2
      simp only [natDigitsAux, if_neg h10]
      cases hcase : natDigitsAux fuel (n / 10) with
      | nil => exact absurd hcase hne
      | cons c cs =>
        have := ih (n / 10) hd hdpos
        rw [hcase] at this
        simpa using this

theorem natDigits_head {n : Nat} (h : 0 < n) : (natDigits n).headD ' ' ≠ '0' :=
  natDigitsAux_head (n + 1) n (by omega) h

theorem natDigitsAux_length_le :
    ∀ fuel n k, n < fuel → n < 10 ^ k → 0 < k → (natDigitsAux fuel n).length ≤ k := by
  intro fuel
  induction fuel with
  | zero => intro n k hn; omega
  | succ fuel ih =>
    intro n k hn hk hkpos
    by_cases h10 : n < 10
    · simp [natDigitsAux, if_pos h10]
      omega
    · have hd : n / 10 < fuel := by
        have := Nat.div_lt_self (by omega : 0 < n) (by omega : 1 < 10)
        omega
      have hk2 : 2 ≤ k := by
        by_contra hc
        interval_cases k
        omega
      have hdiv : n / 10 < 10 ^ (k - 1) := by
        rw [Nat.div_lt_iff_lt_mul (by omega : 0 < 10)]
        calc n < 10 ^ k := hk
        _ = 10 ^ (k - 1) * 10 := by
            rw [← pow_succ]
            congr 1
            omega
      have := ih (n / 10) (k - 1) hd hdiv (by omega)
      simp only [natDigitsAux, if_neg h10, List.length_append, List.length_singleton]
      omega

theorem natDigits_length_le {n k : Nat} (hk : n < 10 ^ k) (hkpos : 0 < k) :
    (natDigits n).length ≤ k :=
  natDigitsAux_length_le (n + 1) n k (by omega) hk hkpos

theorem digit_ne {c : Char} (h : isdigit c = true) {d : Char}
    (hd : d.toNat < 48 ∨ 57 < d.toNat) : c ≠ d := by
  have := isdigit_toNat h
  exact ne_of_toNat_ne (by omega)

theorem dropWhile_isspace_digit {d : Char} (hd : isdigit d = true) (t : List Char) :
    (d :: t).dropWhile isspace = d :: t := by
  simp [List.dropWhile_cons, isspace_of_digit hd]

/-- `strtol` on a pure decimal digit string without a misleading leading
zero consumes everything and returns the clamped decimal value. -/
theorem strtol_digits {ds : List Char} (h1 : ds ≠ []) (h2 : ∀ c ∈ ds, isdigit c = true)
    (h3 : ds.headD ' ' ≠ '0' ∨ ds = ['0']) :
    strtol ds = (clampLong false (natOfDigits ds), []) := by
  rcases h3 with h3 | h3
  · obtain ⟨d, t, rfl⟩ : ∃ d t, ds = d :: t := by
      cases ds with
      | nil => exact absurd rfl h1
      | cons d t => exact ⟨d, t, rfl⟩
    have hd := h2 d (by simp)
    have hminus : d ≠ '-' := digit_ne hd (by decide)
    have hplus : d ≠ '+' := digit_ne hd (by decide)
    simp only [List.headD] at h3
    have hparse : parseDigits 10 (d :: t) = (natOfDigits (d :: t), (d :: t).length, []) := by
      have h4 : parseDigits 10 ((d :: t) ++ ([] : List Char)) =
          (natOfDigits (d :: t), (d :: t).length, []) := parseDigits_digits h2 (by decide)
      simpa using h4
    simp [strtol, dropWhile_isspace_digit hd, hminus, hplus, h3, hparse]
  · subst h3
    decide

theorem digitVal_dot : digitVal 10 '.' = none := by decide

theorem strtodExp_nil (v : Rat) : strtodExp v [] = (v, []) := by
  simp only [strtodExp, List.headD_nil]
  rw [if_neg (by decide)]

/-- `strtod` on a printed fixed-point literal `a.b` (both parts pure
decimal digit strings) consumes everything and returns the exact value. -/
theorem strtod_digits {a b : List Char} (ha : ∀ c ∈ a, isdigit c = true) (ha0 : a ≠ [])
    (hb : ∀ c ∈ b, isdigit c = true) (hb0 : b ≠ []) :
    strtod (a ++ '.' :: b) =
      ((natOfDigits a : Rat) + (natOfDigits b : Rat) / (10 : Rat) ^ b.length, []) := by
  obtain ⟨d, t, rfl⟩ : ∃ d t, a = d :: t := by
    cases a with
    | nil => exact absurd rfl ha0
    | cons d t => exact ⟨d, t, rfl⟩
  have hd := ha d (by simp)
  have hminus : d ≠ '-' := digit_ne hd (by decide)
  have hplus : d ≠ '+' := digit_ne hd (by decide)
  have hdrop : List.dropWhile isspace (d :: (t ++ '.' :: b)) = d :: (t ++ '.' :: b) :=
    dropWhile_isspace_digit hd (t ++ '.' :: b)
  -- after a leading digit comes a digit or '.', never 'x' / 'X'
  have hx : (t ++ '.' :: b).headD ' ' ≠ 'x' ∧ (t ++ '.' :: b).headD ' ' ≠ 'X' := by
    cases t with
    | nil =>
      refine ⟨?_, ?_⟩ <;> (simp only [List.nil_append, List.headD_cons]; decide)
    | cons e t2 =>
      have he := ha e (by simp)
      exact ⟨digit_ne he (by decide), digit_ne he (by decide)⟩
  have hsig : parseDigits 10 (d :: (t ++ '.' :: b)) =
      (natOfDigits (d :: t), t.length + 1, '.' :: b) := by
    have h4 : parseDigits 10 ((d :: t) ++ '.' :: b) =
        (natOfDigits (d :: t), (d :: t).length, '.' :: b) :=
      parseDigits_digits ha (by simp only [List.headD_cons]; decide)
    simpa using h4
  have hfrac : parseDigits 10 b = (natOfDigits b, b.length, []) := by
    have h4 : parseDigits 10 (b ++ ([] : List Char)) = (natOfDigits b, b.length, []) :=
      parseDigits_digits hb (by decide)
    simpa using h4
  have hblen : b.length ≠ 0 := by
    cases b with
    | nil => exact absurd rfl hb0
    | cons x xs => simp
  have hsigval : strtodSig (d :: (t ++ '.' :: b)) =
      some ((natOfDigits (d :: t) : Rat) + (natOfDigits b : Rat) / (10 : Rat) ^ b.length, []) := by
    simp [strtodSig, hsig, hfrac, hblen]
  have hexp := strtodExp_nil ((natOfDigits (d :: t) : Rat) +
    (natOfDigits b : Rat) / (10 : Rat) ^ b.length)
  have hcond : ¬(d = '0' ∧ ((t.head?.or (some '.')).getD ' ' = 'x' ∨
      (t.head?.or (some '.')).getD ' ' = 'X')) := by
    rintro ⟨-, hor⟩
    cases t with
    | nil => simp at hor
    | cons e t2 =>
      have he := ha e (by simp)
      simp at hor
      rcases hor with h | h
      · exact absurd h (digit_ne he (by decide))
      · exact absurd h (digit_ne he (by decide))
  simp [strtod, hdrop, hminus, hplus, hsigval, hexp, hcond]

/-! ### Stream primitive specifications -/

theorem fgetc_cons {inp : List Char} {p : Nat} {c : Char} {r : List Char}
    (h : inp.drop p = c :: r) : fgetc ⟨inp, p⟩ = (some c, ⟨inp, p + 1⟩) := by
  simp [fgetc, File.rem, h]

theorem fgetc_nil {inp : List Char} {p : Nat} (h : inp.drop p = []) :
    fgetc ⟨inp, p⟩ = (none, ⟨inp, p⟩) := by
  simp [fgetc, File.rem, h]

theorem consumeSpace_spec {inp a r : List Char} {p : Nat} (h : inp.drop p = a ++ r)
    (ha : ∀ c ∈ a, isspace c = true) (hr : isspace (r.headD 'x') = false) (hne : r ≠ []) :
    consumeSpace ⟨inp, p⟩ = ⟨inp, p + a.length⟩ := by
  have hlt := drop_lt_length h hne
  simp only [consumeSpace, File.rem, h, spaceRun_append ha hr]
  rw [if_pos hlt]

theorem expect_ok {inp r : List Char} {p : Nat} {c : Char} (h : inp.drop p = c :: r) :
    expect ⟨inp, p⟩ c = (1, ⟨inp, p + 1⟩) := by
  simp [expect, fgetc_cons h]

theorem expect_ne {inp r : List Char} {p : Nat} {c ch : Char} (h : inp.drop p = c :: r)
    (hne : c ≠ ch) : expect ⟨inp, p⟩ ch = (-1, ⟨inp, p + 1⟩) := by
  simp [expect, fgetc_cons h, hne]

theorem keychar_ne_newline {c : Char} (hc : (isalnum c || IsSpecialSymbol c) = true) :
    c ≠ '\n' := by
  refine ne_of_toNat_ne ?_
  have hnl : ('\n').toNat = 10 := by decide
  rw [hnl]
  rcases Bool.or_eq_true _ _ |>.mp hc with h | h
  · have := isalnum_toNat h
    omega
  · rcases special_toNat h with h2 | h2 | h2 <;> omega

/-- `ParseString` on a well-formed identifier followed by a non-identifier
character: returns the identifier and stops right after it. -/
theorem ParseString_spec {inp k r : List Char} {p : Nat} (h : inp.drop p = k ++ r)
    (hk : k ≠ []) (hhead : isalpha (k.headD ' ') = true)
    (htail : ∀ c ∈ k, (isalnum c || IsSpecialSymbol c) = true)
    (hr : (isalnum (r.headD ' ') || IsSpecialSymbol (r.headD ' ')) = false)
    (hne : r ≠ []) :
    ParseString ⟨inp, p⟩ = (some k, ⟨inp, p + k.length⟩) := by
  obtain ⟨c, kt, rfl⟩ : ∃ c kt, k = c :: kt := by
    cases k with
    | nil => exact absurd rfl hk
    | cons c kt => exact ⟨c, kt, rfl⟩
  simp only [List.headD_cons] at hhead
  have hcons : inp.drop p = c :: (kt ++ r) := by simpa using h
  have hlt : p + (c :: kt).length < inp.length := drop_lt_length h hne
  have hdrop1 : inp.drop (p + 1) = kt ++ r := by
    have := drop_split (X := [c]) (Y := kt ++ r) (by simpa using hcons)
    simpa using this
  have hkey : keyRun (inp.drop (p + 1)) = kt.length := by
    rw [hdrop1]
    exact keyRun_append (fun d hd => htail d (by simp [hd])) hr
  have hfull : fgetsTake (c :: kt).length ((c :: kt) ++ r) = c :: kt :=
    fgetsTake_full
      (fun x hx => keychar_ne_newline (htail x (List.dropLast_subset _ hx))) r
  simp only [ParseString, consumeLetter, fgetc_cons hcons, hhead, if_pos, if_neg,
    File.rem, hkey]
  rw [if_neg (by norm_num)]
  have harith : p + 1 + kt.length = p + (c :: kt).length := by simp; omega
  rw [if_pos (by rw [harith]; exact hlt)]
  simp only [pushback]
  rw [if_pos (by omega)]
  have hpos : p + 1 + kt.length - (1 + kt.length) = p := by omega
  rw [hpos]
  simp only [fgets, File.rem, h]
  rw [show (1 + kt.length + 1 - 1) = (c :: kt).length by simp; omega]
  rw [hfull]

/-- `ParseQuotedString` when a closing quote exists: returns the content
(read back through `fgets`, hence faithful only up to its newline
behaviour, excluded here by requiring interior characters ≠ newline). -/
theorem ParseQuotedString_spec {inp s r : List Char} {p : Nat}
    (h : inp.drop p = s ++ quoteChar :: r) (hs : ∀ c ∈ s, c ≠ quoteChar)
    (hnl : ∀ c ∈ s.dropLast, c ≠ '\n') :
    ParseQuotedString ⟨inp, p⟩ = (1, some s, ⟨inp, p + s.length + 1⟩) := by
  have hrun : quoteRun (inp.drop p) = some s.length := by
    rw [h]; exact quoteRun_append hs r
  have hfull : fgetsTake s.length (s ++ quoteChar :: r) = s := by
    have := fgetsTake_full hnl (quoteChar :: r)
    simpa using this
  have hq : inp.drop (p + s.length) = quoteChar :: r := drop_split h
  simp only [ParseQuotedString, File.rem, hrun]
  simp only [pushback]
  rw [if_pos (by omega)]
  have hpos : p + s.length + 1 - (s.length + 1) = p := by omega
  rw [hpos]
  simp only [fgets, File.rem, h]
  rw [show (s.length + 1 - 1) = s.length by omega]
  rw [hfull]
  simp only [fgetc_cons hq]

theorem digit_isNumChar_stopset {c : Char}
    (hc : c = ';' ∨ c = ',' ∨ c = ']' ∨ c = ' ') :
    isNumChar c = false ∧ c ≠ '.' ∧ digitVal 10 c = none := by
  rcases hc with h | h | h | h <;> subst h <;> refine ⟨by decide, by decide, by decide⟩

/-- `ParseGenericNumber` on a pure decimal integer literal followed by a
stopping character: scans it, converts it with `strtol`, and succeeds
whenever the conversion consumes everything. -/
theorem ParseGenericNumber_int {inp ds r : List Char} {p : Nat}
    (h : inp.drop p = ds ++ r) (hds : ∀ c ∈ ds, isdigit c = true) (hne : ds ≠ [])
    (hstop : isNumChar (r.headD ' ') = false ∧ r.headD ' ' ≠ '.')
    (hrne : r ≠ [])
    (hhead : ds.headD ' ' ≠ '0' ∨ ds = ['0']) :
    ParseGenericNumber ⟨inp, p⟩ =
      (1, some (.Number (clampLong false (natOfDigits ds))), ⟨inp, p + ds.length⟩) := by
  obtain ⟨c0, rt, rfl⟩ : ∃ c0 rt, r = c0 :: rt := by
    cases r with
    | nil => exact absurd rfl hrne
    | cons c0 rt => exact ⟨c0, rt, rfl⟩
  simp only [List.headD_cons] at hstop
  have hrun : numRun true (inp.drop p) = some (ds.length, false) := by
    rw [h, numRun_digits hds true (c0 :: rt), numRun_stop hstop.1 hstop.2]
    simp
  have hfull : fgetsTake ds.length (ds ++ c0 :: rt) = ds :=
    fgetsTake_full (fun x hx => by
      have := hds x (List.dropLast_subset _ hx)
      exact digit_ne this (by decide)) _
  have hconv := strtol_digits hne hds hhead
  have hpb : pushback ⟨inp, p + ds.length⟩ ds.length = ⟨inp, p⟩ := by
    simp [pushback]
  simp only [ParseGenericNumber, File.rem, hrun]
  simp [hpb, fgets, File.rem, h, hfull, hconv]

/-- `ParseGenericNumber` on a fixed-point decimal literal `a.b` followed
by a stopping character. -/
theorem ParseGenericNumber_float {inp a b r : List Char} {p : Nat}
    (h : inp.drop p = a ++ '.' :: b ++ r)
    (ha : ∀ c ∈ a, isdigit c = true) (ha0 : a ≠ [])
    (hb : ∀ c ∈ b, isdigit c = true) (hb0 : b ≠ [])
    (hstop : isNumChar (r.headD ' ') = false)
    (hrne : r ≠ []) :
    ParseGenericNumber ⟨inp, p⟩ =
      (1, some (.Decimal ((natOfDigits a : Rat) + (natOfDigits b : Rat) / (10 : Rat) ^ b.length)),
        ⟨inp, p + (a.length + 1 + b.length)⟩) := by
  obtain ⟨c0, rt, rfl⟩ : ∃ c0 rt, r = c0 :: rt := by
    cases r with
    | nil => exact absurd rfl hrne
    | cons c0 rt => exact ⟨c0, rt, rfl⟩
  simp only [List.headD_cons] at hstop
  have hdotstop : isNumChar '.' = false := by decide
  have hrun : numRun true (inp.drop p) = some (a.length + 1 + b.length, true) := by
    rw [h]
    rw [show a ++ '.' :: b ++ c0 :: rt = a ++ ('.' :: (b ++ c0 :: rt)) by simp]
    rw [numRun_digits ha true ('.' :: (b ++ c0 :: rt))]
    simp only [numRun, hdotstop, Bool.false_eq_true, if_neg]
    rw [if_neg (by simp), if_pos (by simp)]
    rw [numRun_digits hb false (c0 :: rt), numRun_stop_false hstop]
    simp
    omega
  have hlen : (a ++ '.' :: b).length = a.length + 1 + b.length := by simp; omega
  have hfull : fgetsTake (a.length + 1 + b.length) ((a ++ '.' :: b) ++ c0 :: rt) =
      a ++ '.' :: b := by
    rw [← hlen]
    refine fgetsTake_full ?_ _
    intro x hx
    have hx2 : x ∈ a ++ '.' :: b := List.dropLast_subset _ hx
    simp only [List.mem_append, List.mem_cons] at hx2
    rcases hx2 with hx2 | hx2 | hx2
    · exact digit_ne (ha x hx2) (by decide)
    · subst hx2; decide
    · exact digit_ne (hb x hx2) (by decide)
  have hconv := strtod_digits ha ha0 hb hb0
  have hpb : pushback ⟨inp, p + (a.length + 1 + b.length)⟩ (a.length + 1 + b.length) =
      ⟨inp, p⟩ := by
    simp [pushback]
  have hassoc : List.drop p inp = (a ++ '.' :: b) ++ c0 :: rt := by simp [h]
  have hgets : fgets ⟨inp, p⟩ (a.length + 1 + b.length + 1) =
      (a ++ '.' :: b, ⟨inp, p + (a.length + 1 + b.length)⟩) := by
    simp only [fgets, File.rem, hassoc, Nat.add_sub_cancel, hfull, hlen]
  simp only [ParseGenericNumber, File.rem, hrun, hpb, hgets, hconv]
  simp

theorem digit_ne_quotechar {c : Char} (h : isdigit c = true) : c ≠ quoteChar := by
  have := (isdigit_toNat h).1
  exact ne_of_toNat_ne (by have hq : quoteChar.toNat = 39 := by decide
                           omega)

theorem ParseValue_int {inp ds r : List Char} {p : Nat}
    (h : inp.drop p = ds ++ r) (hds : ∀ c ∈ ds, isdigit c = true) (hne : ds ≠ [])
    (hstop : isNumChar (r.headD ' ') = false ∧ r.headD ' ' ≠ '.') (hrne : r ≠ [])
    (hhead : ds.headD ' ' ≠ '0' ∨ ds = ['0']) :
    ParseValue ⟨inp, p⟩ =
      (1, some (.Number (clampLong false (natOfDigits ds))), ⟨inp, p + ds.length⟩) := by
  obtain ⟨d, dt, rfl⟩ : ∃ d dt, ds = d :: dt := by
    cases ds with
    | nil => exact absurd rfl hne
    | cons d dt => exact ⟨d, dt, rfl⟩
  have hd := hds d (by simp)
  have hcons : inp.drop p = d :: (dt ++ r) := by simpa using h
  have hpb : pushback ⟨inp, p + 1⟩ 1 = ⟨inp, p⟩ := by simp [pushback]
  simp only [ParseValue, fgetc_cons hcons, if_neg (digit_ne_quotechar hd), hd,
    if_pos, hpb]
  exact ParseGenericNumber_int h hds hne hstop hrne hhead

theorem ParseValue_float {inp a b r : List Char} {p : Nat}
    (h : inp.drop p = a ++ '.' :: b ++ r)
    (ha : ∀ c ∈ a, isdigit c = true) (ha0 : a ≠ [])
    (hb : ∀ c ∈ b, isdigit c = true) (hb0 : b ≠ [])
    (hstop : isNumChar (r.headD ' ') = false) (hrne : r ≠ []) :
    ParseValue ⟨inp, p⟩ =
      (1, some (.Decimal ((natOfDigits a : Rat) + (natOfDigits b : Rat) / (10 : Rat) ^ b.length)),
        ⟨inp, p + (a.length + 1 + b.length)⟩) := by
  obtain ⟨d, dt, rfl⟩ : ∃ d dt, a = d :: dt := by
    cases a with
    | nil => exact absurd rfl ha0
    | cons d dt => exact ⟨d, dt, rfl⟩
  have hd := ha d (by simp)
  have hcons : inp.drop p = d :: (dt ++ '.' :: b ++ r) := by simpa using h
  have hpb : pushback ⟨inp, p + 1⟩ 1 = ⟨inp, p⟩ := by simp [pushback]
  simp only [ParseValue, fgetc_cons hcons, if_neg (digit_ne_quotechar hd), hd,
    if_pos, hpb]
  exact ParseGenericNumber_float h ha ha0 hb hb0 hstop hrne

theorem ParseValue_string {inp s r : List Char} {p : Nat}
    (h : inp.drop p = quoteChar :: (s ++ quoteChar :: r))
    (hs : ∀ c ∈ s, c ≠ quoteChar) (hnl : ∀ c ∈ s.dropLast, c ≠ '\n') :
    ParseValue ⟨inp, p⟩ = (1, some (.String s), ⟨inp, p + s.length + 2⟩) := by
  have hq : inp.drop (p + 1) = s ++ quoteChar :: r := by
    have := drop_split (X := [quoteChar]) (Y := s ++ quoteChar :: r) (by simpa using h)
    simpa using this
  simp only [ParseValue, fgetc_cons h, ParseQuotedString_spec hq hs hnl, ite_true,
    eq_self_iff_true, Option.map_some]
  rw [show p + 1 + s.length + 1 = p + s.length + 2 by omega]
  rfl

/-! ### Additional scan lemma for EOF inside numeric literals -/

theorem numRun_none {l : List Char} (h : ∀ c ∈ l, isNumChar c = true) (b : Bool) :
    numRun b l = none := by
  induction l generalizing b with
  | nil => rfl
  | cons c cs ih =>
    simp only [numRun, h c (by simp), if_pos]
    rw [ih (fun d hd => h d (by simp [hd])) b]
    rfl

/-! ## The claims -/

/-- Claim C2: `k = 1.2.3;` captures the literal `"1.2"` (three characters:
the second dot stops the scan), converts it successfully to the float 1.2
(here the exact rational 6/5), the value parse succeeds leaving `.3` in
the stream, and the whole statement then fails with UnexpectedToken at
the statement-terminator check. -/
theorem claim_C2 :
    numRun true "1.2.3;".toList = some (3, true) ∧
    List.take 3 "1.2.3;".toList = "1.2".toList ∧
    strtod "1.2".toList = ((6 : Rat) / 5, []) ∧
    ParseValue ⟨"k = 1.2.3;".toList, 4⟩ =
      (1, some (.Decimal ((6 : Rat) / 5)), ⟨"k = 1.2.3;".toList, 7⟩) ∧
    ParseConfig 100 "k = 1.2.3;".toList = some (UNEXPECTED_TOKEN, none) := by
  have e1 : natOfDigits ['1'] = 1 := by decide
  have e2 : natOfDigits ['2'] = 2 := by decide
  refine ⟨by decide, by decide, ?_, ?_, by decide⟩
  · have h := strtod_digits (show ∀ c ∈ ['1'], isdigit c = true by decide) (by decide)
      (show ∀ c ∈ ['2'], isdigit c = true by decide) (by decide)
    rw [show "1.2".toList = ['1'] ++ '.' :: ['2'] by decide, h, e1, e2]
    norm_num
  · have h0 : List.drop 4 "k = 1.2.3;".toList =
        ['1'] ++ '.' :: ['2'] ++ '.' :: '3' :: ';' :: [] := by decide
    have h := ParseValue_float h0 (by decide) (by decide) (by decide) (by decide)
      (by decide) (by decide)
    rw [h, e1, e2]
    norm_num

/-- Claim C3: the array parser accepts the empty array (`k = [];` gives an
Array of length 0) and a trailing comma (`k = [1,2,];` gives the same
two-element array as `k = [1,2];`). -/
theorem claim_C3 :
    ParseConfig 100 "k = [];".toList =
      some (1, some ⟨1, [⟨['k'], ARRAY_TYPE, .Array []⟩]⟩) ∧
    ParseConfig 100 "k = [1,2,];".toList =
      some (1, some ⟨1, [⟨['k'], ARRAY_TYPE, .Array [.Number 1, .Number 2]⟩]⟩) ∧
    ParseConfig 100 "k = [1,2];".toList =
      some (1, some ⟨1, [⟨['k'], ARRAY_TYPE, .Array [.Number 1, .Number 2]⟩]⟩) := by
  refine ⟨by decide, by decide, by decide⟩

/-- Claim C9: a leading or doubled comma is accepted: each comma merely
re-arms the needs-element flag, so `k = [,1];` parses to a length-1 array
and `k = [1,,2];` to a length-2 array. -/
theorem claim_C9 :
    ParseConfig 100 "k = [,1];".toList =
      some (1, some ⟨1, [⟨['k'], ARRAY_TYPE, .Array [.Number 1]⟩]⟩) ∧
    ParseConfig 100 "k = [1,,2];".toList =
      some (1, some ⟨1, [⟨['k'], ARRAY_TYPE, .Array [.Number 1, .Number 2]⟩]⟩) := by
  refine ⟨by decide, by decide⟩

/-- Counterexample to claim C6 as stated: the document `1 = 2;` has a
statement whose key begins with a non-alphabetic character, yet parsing
fails with UnexpectedToken, not InvalidConfigKey. -/
theorem claim_C6_counterexample :
    ParseConfig 100 "1 = 2;".toList = some (UNEXPECTED_TOKEN, none) ∧
    UNEXPECTED_TOKEN ≠ INVALID_CONFIG_KEY := by
  refine ⟨by decide, by decide⟩

/-- Claim C6 (amended): the statement parser `ParseConfigLine` does fail
with InvalidConfigKey on a non-alphabetic first key character, but the
statement dispatcher `ParseCfg` rejects any non-alphabetic, non-space,
non-`#` first character with UnexpectedToken before `ParseConfigLine`
runs, so a whole-document parse reports UnexpectedToken. -/
theorem claim_C6_amended (fuel : Nat) (f : File) (c : Char) (r : List Char)
    (h : f.rem = c :: r) (halpha : isalpha c = false) (hsp : isspace c = false)
    (hhash : c ≠ '#') :
    (ParseCfg fuel f).map (fun x => (x.1, x.2.1)) = some (UNEXPECTED_TOKEN, none) ∧
    (ParseConfigLine fuel f).map (fun x => (x.1, x.2.1)) =
      some (INVALID_CONFIG_KEY, none) := by
  obtain ⟨inp, p⟩ := f
  simp only [File.rem] at h
  have hnl : c ≠ '\n' := by
    intro hc
    subst hc
    simp [isspace] at hsp
  have hblank : blankRun (List.drop p inp) = 0 := by
    rw [h]
    simp [blankRun, hsp]
  constructor
  · simp only [ParseCfg, File.rem, hblank, Nat.add_zero, fgetc_cons h, hnl, hhash,
      halpha]
    simp [hnl, hhash, halpha]
  · simp only [ParseConfigLine, ParseString, consumeLetter, fgetc_cons h, halpha]
    simp

/-- Witness for the amended claim C6 at the concrete document `1 = 2;`. -/
theorem claim_C6_amended_witness :
    (ParseCfg 99 ⟨"1 = 2;".toList, 0⟩).map (fun x => (x.1, x.2.1)) =
      some (UNEXPECTED_TOKEN, none) ∧
    (ParseConfigLine 99 ⟨"1 = 2;".toList, 0⟩).map (fun x => (x.1, x.2.1)) =
      some (INVALID_CONFIG_KEY, none) :=
  claim_C6_amended 99 ⟨"1 = 2;".toList, 0⟩ '1' " = 2;".toList (by decide) (by decide)
    (by decide) (by decide)

/-- Counterexample to claim C10 as stated: `k = [12` at end of input does
not fail with InvalidArrayElement; the statement terminator check masks
the array error and the parse reports UnexpectedToken. -/
theorem claim_C10_counterexample :
    ParseConfig 100 "k = [12".toList = some (UNEXPECTED_TOKEN, none) ∧
    UNEXPECTED_TOKEN ≠ INVALID_ARRAY_ELEMENT := by
  refine ⟨by decide, by decide⟩

/-- Claim C10 (amended): end of input while scanning a numeric literal —
also after digits were already consumed — makes `ParseGenericNumber` fail
with UnexpectedToken; inside an array `ParseVector` remaps that failure
to InvalidArrayElement; but for the whole statement `k = [12` the
terminator check then masks the array error, so the document parse
returns UnexpectedToken (and not UnexpectedEndOfInput either). -/
theorem claim_C10_amended :
    (∀ f : File, (∀ c ∈ f.rem, isNumChar c = true) →
      ParseGenericNumber f = (UNEXPECTED_TOKEN, none, ⟨f.input, f.input.length⟩)) ∧
    ParseVector 100 ⟨"k = [12".toList, 5⟩ =
      some (INVALID_ARRAY_ELEMENT, [], ⟨"k = [12".toList, 7⟩) ∧
    ParseConfig 100 "k = [12".toList = some (UNEXPECTED_TOKEN, none) := by
  refine ⟨?_, by decide, by decide⟩
  intro f hf
  obtain ⟨inp, p⟩ := f
  simp only [File.rem] at hf
  simp [ParseGenericNumber, File.rem, numRun_none hf true]

/-- Witness for the amended claim C10: the numeric scanner hits EOF after
the digits `12` and fails with UnexpectedToken. -/
theorem claim_C10_amended_witness :
    ParseGenericNumber ⟨"12".toList, 0⟩ =
      (UNEXPECTED_TOKEN, none, ⟨"12".toList, 2⟩) :=
  claim_C10_amended.1 ⟨"12".toList, 0⟩ (by decide)

/-- Claim C7: once the opening quote of a string has been consumed, if no
closing quote remains in the input, the quoted-string parser fails with
UnexpectedEndOfInput (the scan consumes everything to EOF). -/
theorem claim_C7 (f : File) (h : ∀ c ∈ f.rem, c ≠ quoteChar) :
    ParseQuotedString f = (UNEXPECTED_EOF, none, ⟨f.input, f.input.length⟩) := by
  obtain ⟨inp, p⟩ := f
  simp only [File.rem] at h
  simp [ParseQuotedString, File.rem, quoteRun_none h]

/-- Witness for claim C7: an unterminated string body `abc` at EOF. -/
theorem claim_C7_witness :
    ParseQuotedString ⟨"abc".toList, 0⟩ = (UNEXPECTED_EOF, none, ⟨"abc".toList, 3⟩) :=
  claim_C7 ⟨"abc".toList, 0⟩ (by decide)

theorem FindValueAux_spec (ty : Int) (key : List Char) :
    ∀ l : List ConfigEntry,
      FindValueAux l l.length ty key =
        (l.find? (fun e => decide (e.Key = key ∧ e.Ty = ty))).map ConfigEntry.Val := by
  intro l
  induction l with
  | nil => rfl
  | cons e rest ih =>
    by_cases hp : (e.Key = key ∧ e.Ty = ty)
    · simp [FindValueAux, List.find?_cons, hp]
    · simp only [List.length_cons, FindValueAux, if_neg hp, List.find?_cons]
      rw [ih]
      have : decide (e.Key = key ∧ e.Ty = ty) = false := by simpa using hp
      rw [this]

/-- Claim C5: `FindValue` is a linear scan in document order returning the
value of the first entry whose key and kind both match, `none` when no
entry matches; duplicate keys therefore resolve to the earliest
occurrence.  (The scan is bounded by the stored entry count, which equals
the list length for every well-formed document.) -/
theorem claim_C5 (c : Config) (ty : Int) (key : List Char)
    (h : c.Entries = c.Items.length) :
    FindValue c ty key =
      (c.Items.find? (fun e => decide (e.Key = key ∧ e.Ty = ty))).map ConfigEntry.Val := by
  rw [FindValue, h]
  exact FindValueAux_spec ty key c.Items

/-- Witness for claim C5 on a document with a duplicated key: the first
occurrence's value is returned. -/
theorem claim_C5_witness :
    FindValue ⟨2, [⟨['k'], PRIMITIVE_TYPE, .Primitive (.Number 1)⟩,
        ⟨['k'], PRIMITIVE_TYPE, .Primitive (.Number 2)⟩]⟩ PRIMITIVE_TYPE ['k'] =
      (([⟨['k'], PRIMITIVE_TYPE, .Primitive (.Number 1)⟩,
        ⟨['k'], PRIMITIVE_TYPE, .Primitive (.Number 2)⟩] : List ConfigEntry).find?
          (fun e => decide (e.Key = ['k'] ∧ e.Ty = PRIMITIVE_TYPE))).map ConfigEntry.Val :=
  claim_C5 ⟨2, [⟨['k'], PRIMITIVE_TYPE, .Primitive (.Number 1)⟩,
    ⟨['k'], PRIMITIVE_TYPE, .Primitive (.Number 2)⟩]⟩ PRIMITIVE_TYPE ['k'] (by decide)

/-! ### Document-builder loop invariants (claim C8) -/

theorem ParseConfigLoop_ok :
    ∀ fuel (f : File) acc cnt st cfg, cnt = acc.length →
      ParseConfigLoop fuel f acc cnt = some (st, some cfg) →
      st = 1 ∧ cfg.Entries = cfg.Items.length ∧ ∃ suffix, cfg.Items = acc ++ suffix := by
  intro fuel
  induction fuel with
  | zero => intro f acc cnt st cfg hcnt h; simp [ParseConfigLoop] at h
  | succ fuel ih =>
    intro f acc cnt st cfg hcnt h
    simp only [ParseConfigLoop] at h
    rcases hg : fgetc { f with pos := f.pos + spaceRun f.rem } with ⟨oc, f1⟩
    rw [hg] at h
    cases oc with
    | none =>
      simp only [Option.some.injEq, Prod.mk.injEq] at h
      obtain ⟨h1, h2⟩ := h
      subst h2
      exact ⟨h1.symm, by simpa using hcnt, [], by simp⟩
    | some c =>
      simp only at h
      rcases hc : ParseCfg fuel (pushback f1 1) with _ | ⟨st', e, f2⟩
      · rw [hc] at h; simp at h
      · rw [hc] at h
        simp only at h
        by_cases hst : st' < 0
        · rw [if_pos hst] at h
          simp at h
        · rw [if_neg hst] at h
          have hcnt2 : cnt + (if e.isSome then 1 else 0) = (acc ++ e.toList).length := by
            cases e <;> simp [hcnt]
          obtain ⟨h1, h2, suffix, h3⟩ := ih f2 (acc ++ e.toList) _ st cfg hcnt2 h
          exact ⟨h1, h2, e.toList ++ suffix, by simp [h3]⟩

theorem ParseConfigLoop_err :
    ∀ fuel (f : File) acc cnt st r,
      ParseConfigLoop fuel f acc cnt = some (st, r) → st < 0 → r = none := by
  intro fuel
  induction fuel with
  | zero => intro f acc cnt st r h; simp [ParseConfigLoop] at h
  | succ fuel ih =>
    intro f acc cnt st r h hneg
    simp only [ParseConfigLoop] at h
    rcases hg : fgetc { f with pos := f.pos + spaceRun f.rem } with ⟨oc, f1⟩
    rw [hg] at h
    cases oc with
    | none =>
      simp only at h
      have := Option.some.inj h
      have h1 := congrArg Prod.fst this
      simp at h1
      omega
    | some c =>
      simp only at h
      rcases hc : ParseCfg fuel (pushback f1 1) with _ | ⟨st', e, f2⟩
      · rw [hc] at h; simp at h
      · rw [hc] at h
        simp only at h
        by_cases hst : st' < 0
        · rw [if_pos hst] at h
          have := Option.some.inj h
          exact (congrArg Prod.snd this).symm
        · rw [if_neg hst] at h
          exact ih f2 _ _ st r h hneg

theorem spaceRun_all {l : List Char} (h : ∀ c ∈ l, isspace c = true) :
    spaceRun l = l.length := by
  induction l with
  | nil => rfl
  | cons c cs ih => simp [spaceRun, h c (by simp), ih (fun d hd => h d (by simp [hd]))]

theorem ParseConfigLoop_allspace (fuel : Nat) (f : File) (acc : List ConfigEntry)
    (cnt : Nat) (hfuel : 0 < fuel) (h : ∀ c ∈ f.rem, isspace c = true) :
    ParseConfigLoop fuel f acc cnt = some (1, some ⟨cnt, acc⟩) := by
  obtain ⟨fuel, rfl⟩ : ∃ k, fuel = k + 1 := ⟨fuel - 1, by omega⟩
  have hrun := spaceRun_all h
  have hnil : List.drop (f.pos + f.rem.length) f.input = [] := by
    have hlen : f.rem.length = f.input.length - f.pos := by
      simp [File.rem]
    rw [List.drop_eq_nil_iff]
    omega
  simp only [ParseConfigLoop, hrun]
  rw [fgetc_nil (by simpa using hnil)]

/-- Claim C8: document-builder invariants.  (1) A successful build yields
status 1 and an entry count equal to the number of entries, the entries
extending the accumulator in order; (2) a failing build returns no
document at all; (3) end of input (possibly after trailing whitespace)
between statements ends the build successfully; (4) one loop step:
entries of successive statements are appended in source order, and the
first failing statement aborts the whole build with that statement's
failure. -/
theorem claim_C8 :
    (∀ fuel input st cfg, ParseConfig fuel input = some (st, some cfg) →
      st = 1 ∧ cfg.Entries = cfg.Items.length) ∧
    (∀ fuel input st r, ParseConfig fuel input = some (st, r) → st < 0 → r = none) ∧
    (∀ fuel input, 0 < fuel → (∀ c ∈ input, isspace c = true) →
      ParseConfig fuel input = some (1, some ⟨0, []⟩)) ∧
    (∀ fuel (f : File) acc cnt c f1 st e f2,
      fgetc { f with pos := f.pos + spaceRun f.rem } = (some c, f1) →
      ParseCfg fuel (pushback f1 1) = some (st, e, f2) →
      ParseConfigLoop (fuel + 1) f acc cnt =
        (if st < 0 then some (st, none)
         else ParseConfigLoop fuel f2 (acc ++ e.toList)
           (cnt + (if e.isSome then 1 else 0)))) := by
  refine ⟨?_, ?_, ?_, ?_⟩
  · intro fuel input st cfg h
    obtain ⟨h1, h2, _⟩ := ParseConfigLoop_ok fuel ⟨input, 0⟩ [] 0 st cfg rfl h
    exact ⟨h1, h2⟩
  · intro fuel input st r h
    exact ParseConfigLoop_err fuel ⟨input, 0⟩ [] 0 st r h
  · intro fuel input hf h
    exact ParseConfigLoop_allspace fuel ⟨input, 0⟩ [] 0 hf (by simpa [File.rem] using h)
  · intro fuel f acc cnt c f1 st e f2 hg hc
    simp only [ParseConfigLoop, hg, hc]

/-- Witness for claim C8 at the concrete document `a = 1;`. -/
theorem claim_C8_witness :
    ((1 : Int) = 1 ∧
      (⟨1, [⟨['a'], PRIMITIVE_TYPE, .Primitive (.Number 1)⟩]⟩ : Config).Entries =
        (⟨1, [⟨['a'], PRIMITIVE_TYPE, .Primitive (.Number 1)⟩]⟩ : Config).Items.length) ∧
    ParseConfig 3 "   ".toList = some (1, some ⟨0, []⟩) :=
  ⟨claim_C8.1 3 "a = 1;".toList 1 ⟨1, [⟨['a'], PRIMITIVE_TYPE, .Primitive (.Number 1)⟩]⟩
      (by decide),
    claim_C8.2.2.1 3 "   ".toList (by decide) (by decide)⟩

/-- Claim C1: for every well-formed integer statement `k = N;` (N a pure
decimal numeral without fractional part and without a misleading leading
zero, whose value fits in a signed 64-bit integer), parsing succeeds with
a single Primitive entry and `find(doc, Primitive, "k")` yields
`Integer(N)`. -/
theorem claim_C1 (ds : List Char) (h1 : ds ≠ []) (h2 : ∀ c ∈ ds, isdigit c = true)
    (h3 : ds.headD ' ' ≠ '0' ∨ ds = ['0']) (h4 : natOfDigits ds < 2 ^ 63) :
    ParseConfig 3 ("k = ".toList ++ ds ++ [';']) =
      some (1, some ⟨1, [⟨['k'], PRIMITIVE_TYPE,
        .Primitive (.Number (natOfDigits ds))⟩]⟩) ∧
    FindValue ⟨1, [⟨['k'], PRIMITIVE_TYPE, .Primitive (.Number (natOfDigits ds))⟩]⟩
      PRIMITIVE_TYPE ['k'] = some (.Primitive (.Number (natOfDigits ds))) := by
  obtain ⟨d, dt, rfl⟩ : ∃ d dt, ds = d :: dt := by
    cases ds with
    | nil => exact absurd rfl h1
    | cons d dt => exact ⟨d, dt, rfl⟩
  have hd := h2 d (by simp)
  constructor
  · have hinp : "k = ".toList ++ (d :: dt) ++ [';'] =
        'k' :: ' ' :: '=' :: ' ' :: ((d :: dt) ++ [';']) := rfl
    rw [hinp]
    set inp := 'k' :: ' ' :: '=' :: ' ' :: ((d :: dt) ++ [';']) with hinpdef
    have hlen : inp.length = 6 + dt.length := by
      rw [hinpdef]
      simp
      omega
    have hdrop4 : List.drop 4 inp = (d :: dt) ++ [';'] := rfl
    have hkey : ParseString ⟨inp, 0⟩ = (some ['k'], ⟨inp, 1⟩) := by
      have := ParseString_spec
        (show List.drop 0 inp = ['k'] ++ (' ' :: '=' :: ' ' :: ((d :: dt) ++ [';'])) from rfl)
        (by simp) (by decide) (by decide)
        (by simp only [List.headD_cons]; decide) (by simp)
      simpa using this
    have hsp1 : consumeSpace ⟨inp, 1⟩ = ⟨inp, 2⟩ := by
      have := consumeSpace_spec
        (show List.drop 1 inp = [' '] ++ ('=' :: ' ' :: ((d :: dt) ++ [';'])) from rfl)
        (by decide) (by simp only [List.headD_cons]; decide) (by simp)
      simpa using this
    have heq : expect ⟨inp, 2⟩ '=' = (1, ⟨inp, 3⟩) :=
      expect_ok (show List.drop 2 inp = '=' :: (' ' :: ((d :: dt) ++ [';'])) from rfl)
    have hsp2 : consumeSpace ⟨inp, 3⟩ = ⟨inp, 4⟩ := by
      have := consumeSpace_spec
        (show List.drop 3 inp = [' '] ++ ((d :: dt) ++ [';']) from rfl) (by decide)
        (by simp only [List.headD_cons, List.cons_append, List.headD]
            exact isspace_of_digit hd)
        (by simp)
      simpa using this
    have hclamp : clampLong false (natOfDigits (d :: dt)) = (natOfDigits (d :: dt) : Int) := by
      simp only [clampLong, Bool.false_eq_true, if_neg, LONG_MAX]
      rw [if_neg (by simp)]
      rw [min_eq_right]
      omega
    have hval : ParseValue ⟨inp, 4⟩ =
        (1, some (.Number (natOfDigits (d :: dt))), ⟨inp, 4 + (d :: dt).length⟩) := by
      have := ParseValue_int hdrop4 h2 h1
        (⟨by simp only [List.headD_cons]; decide, by simp only [List.headD_cons]; decide⟩)
        (by simp) h3
      rw [hclamp] at this
      exact this
    have hq : List.drop (4 + (d :: dt).length) inp = [';'] := drop_split hdrop4
    have hsp3 : consumeSpace ⟨inp, 4 + (d :: dt).length⟩ = ⟨inp, 4 + (d :: dt).length⟩ := by
      have := consumeSpace_spec (show List.drop (4 + (d :: dt).length) inp = [] ++ [';']
          from by simpa using hq)
        (by simp) (by simp only [List.headD_cons]; decide) (by simp)
      simpa using this
    have hsemi : expect ⟨inp, 4 + (d :: dt).length⟩ ';' =
        (1, ⟨inp, 4 + (d :: dt).length + 1⟩) := expect_ok hq
    have hcons4 : List.drop 4 inp = d :: (dt ++ [';']) := by simpa using hdrop4
    have hpb5 : pushback ⟨inp, 4 + 1⟩ 1 = ⟨inp, 4⟩ := by simp [pushback]
    have hline : ParseConfigLine 2 ⟨inp, 0⟩ =
        some (1, some ⟨['k'], PRIMITIVE_TYPE, .Primitive (.Number (natOfDigits (d :: dt)))⟩,
          ⟨inp, 4 + (d :: dt).length + 1⟩) := by
      simp only [ParseConfigLine, hkey, hsp1, heq, hsp2]
      rw [if_neg (by norm_num)]
      rw [fgetc_cons hcons4]
      simp only
      rw [if_neg (show ¬(d = '[') from digit_ne hd (by decide))]
      simp only [hpb5, hval, Option.some_bind, hsp3, hsemi]
      rw [if_neg (by norm_num)]
      norm_num
    have hblank : blankRun inp = 0 := by
      rw [hinpdef]
      simp only [blankRun]
      rw [if_neg (by decide)]
    have hpb1 : pushback ⟨inp, 0 + 1⟩ 1 = ⟨inp, 0⟩ := by simp [pushback]
    have hcfg : ParseCfg 2 ⟨inp, 0⟩ =
        some (1, some ⟨['k'], PRIMITIVE_TYPE, .Primitive (.Number (natOfDigits (d :: dt)))⟩,
          ⟨inp, 4 + (d :: dt).length + 1⟩) := by
      simp only [ParseCfg, File.rem, List.drop_zero]
      rw [hblank]
      rw [fgetc_cons (show List.drop 0 inp = 'k' :: (' ' :: '=' :: ' ' :: ((d :: dt) ++ [';']))
        from rfl)]
      simp only
      rw [if_neg (by decide), if_neg (by decide), if_pos (by decide)]
      rw [hpb1, hline]
      simp
    have hrem_end : List.drop (4 + (d :: dt).length + 1) inp = [] := by
      rw [List.drop_eq_nil_iff]
      simp only [hlen, List.length_cons]
      omega
    have hloop2 : ParseConfigLoop 2 ⟨inp, 4 + (d :: dt).length + 1⟩
        [⟨['k'], PRIMITIVE_TYPE, .Primitive (.Number (natOfDigits (d :: dt)))⟩] 1 =
        some (1, some ⟨1, [⟨['k'], PRIMITIVE_TYPE,
          .Primitive (.Number (natOfDigits (d :: dt)))⟩]⟩) := by
      refine ParseConfigLoop_allspace 2 _ _ _ (by omega) ?_
      simp only [File.rem]
      rw [hrem_end]
      simp
    show ParseConfigLoop 3 ⟨inp, 0⟩ [] 0 = _
    simp only [ParseConfigLoop, File.rem, List.drop_zero]
    rw [spaceRun_stop (show isspace (inp.headD 'x') = false
      from by rw [hinpdef]; simp only [List.headD_cons]; decide)]
    rw [fgetc_cons (show List.drop 0 inp = 'k' :: (' ' :: '=' :: ' ' :: ((d :: dt) ++ [';']))
      from rfl)]
    simp only [hpb1, hcfg]
    rw [if_neg (by norm_num)]
    simpa using hloop2
  · simp [FindValue, FindValueAux]

/-- Witness for claim C1 at the statement `k = 42;`. -/
theorem claim_C1_witness :
    ParseConfig 3 ("k = ".toList ++ ['4', '2'] ++ [';']) =
      some (1, some ⟨1, [⟨['k'], PRIMITIVE_TYPE,
        .Primitive (.Number (natOfDigits ['4', '2']))⟩]⟩) ∧
    FindValue ⟨1, [⟨['k'], PRIMITIVE_TYPE, .Primitive (.Number (natOfDigits ['4', '2']))⟩]⟩
      PRIMITIVE_TYPE ['k'] = some (.Primitive (.Number (natOfDigits ['4', '2']))) :=
  claim_C1 ['4', '2'] (by decide) (by decide) (by decide) (by decide)

/-! ### Round-trip machinery (claim C4) -/

theorem natOfDigits_replicate_zero (k : Nat) (l : List Char) :
    natOfDigits (List.replicate k '0' ++ l) = natOfDigits l := by
  induction k with
  | zero => simp
  | succ k ih =>
    have : List.replicate (k + 1) '0' ++ l = '0' :: (List.replicate k '0' ++ l) := by
      simp [List.replicate_succ]
    rw [this]
    simp only [natOfDigits, List.foldl_cons] at ih ⊢
    have h0 : (0 : Nat) * 10 + (('0').toNat - 48) = 0 := by decide
    rw [h0]
    exact ih

theorem wfprim_number {n : Int} (hv : WfPrim (.Number n) = true) :
    0 ≤ n ∧ n ≤ LONG_MAX := by
  simpa [WfPrim] using hv

theorem wfprim_string {s : List Char} (hv : WfPrim (.String s) = true) :
    (∀ c ∈ s, c ≠ quoteChar) ∧ (∀ c ∈ s.dropLast, c ≠ '\n') := by
  simp only [WfPrim, Bool.and_eq_true, List.all_eq_true] at hv
  refine ⟨fun c hc => ?_, fun c hc => ?_⟩
  · simpa using hv.1 c hc
  · simpa using hv.2 c hc

theorem wfprim_decimal {q : Rat} (hv : WfPrim (.Decimal q) = true) :
    0 ≤ q ∧ (q * 1000000).den = 1 := by
  simpa [WfPrim] using hv

/-- Re-parsing a printed primitive yields the primitive back, leaving the
position immediately after it. -/
theorem ParseValue_print {v : PrimitiveValue} (hv : WfPrim v = true)
    {inp r : List Char} {p : Nat} (h : inp.drop p = PrintPrimitive v ++ r)
    (hstop : isNumChar (r.headD ' ') = false ∧ r.headD ' ' ≠ '.') (hrne : r ≠ []) :
    ParseValue ⟨inp, p⟩ = (1, some v, ⟨inp, p + (PrintPrimitive v).length⟩) := by
  cases v with
  | Number n =>
    obtain ⟨h0, hmax⟩ := wfprim_number hv
    have hprint : PrintPrimitive (.Number n) = natDigits n.toNat := by
      simp [PrintPrimitive, printLong, not_lt.mpr h0]
    rw [hprint] at h ⊢
    have hhead : (natDigits n.toNat).headD ' ' ≠ '0' ∨ natDigits n.toNat = ['0'] := by
      by_cases hz : n.toNat = 0
      · right; rw [hz]; decide
      · left; exact natDigits_head (by omega)
    have := ParseValue_int h (natDigits_digits n.toNat) (natDigits_ne_nil n.toNat)
      hstop hrne hhead
    rw [natOfDigits_natDigits] at this
    have hcl : clampLong false n.toNat = n := by
      simp only [clampLong, Bool.false_eq_true, if_neg]
      rw [if_neg (by simp)]
      rw [min_eq_right (by omega : (n.toNat : Int) ≤ LONG_MAX)]
      omega
    rw [hcl] at this
    exact this
  | String s =>
    obtain ⟨hq, hnl⟩ := wfprim_string hv
    have hprint : PrintPrimitive (.String s) = quoteChar :: (s ++ [quoteChar]) := rfl
    have h2 : inp.drop p = quoteChar :: (s ++ quoteChar :: r) := by
      rw [h, hprint]
      simp
    have := ParseValue_string h2 hq hnl
    rw [this]
    have hlen : (PrintPrimitive (.String s)).length = s.length + 2 := by
      simp [hprint]
    rw [hlen]
    rw [show p + s.length + 2 = p + (s.length + 2) by omega]
  | Decimal q =>
    obtain ⟨h0, hden⟩ := wfprim_decimal hv
    have hM : ((q * 1000000).num : Rat) = q * 1000000 :=
      Rat.coe_int_num_of_den_eq_one hden
    set M : Int := (q * 1000000).num with hMdef
    have hM0 : 0 ≤ M := by
      rw [hMdef]
      exact Rat.num_nonneg.mpr (by positivity)
    have hfloorconn : (q * 1000000 + 1 / 2).floor = ⌊q * 1000000 + 1 / 2⌋ :=
      (Rat.floor_def' _).trans Rat.floor_def.symm
    have hfloor : (q * 1000000 + 1 / 2).floor = M := by
      rw [hfloorconn, ← hM, Int.floor_int_add]
      norm_num
    have hdiv : M = 1000000 * (M / 1000000) + M % 1000000 :=
      (Int.ediv_add_emod M 1000000).symm
    have hB0 : 0 ≤ M % 1000000 := Int.emod_nonneg M (by norm_num)
    have hBlt : M % 1000000 < 1000000 := Int.emod_lt_of_pos M (by norm_num)
    have hA0 : 0 ≤ M / 1000000 := Int.ediv_nonneg hM0 (by norm_num)
    have hprint : PrintPrimitive (.Decimal q) =
        natDigits (M / 1000000).toNat ++ '.' :: pad6 (M % 1000000) := by
      simp only [PrintPrimitive, printDouble, hfloor, printLong, if_neg (not_lt.mpr hA0)]
    have hBnat : (M % 1000000).toNat < 1000000 := by omega
    have hpadlen : (pad6 (M % 1000000)).length = 6 := by
      have hle : (natDigits (M % 1000000).toNat).length ≤ 6 :=
        natDigits_length_le (by exact_mod_cast hBnat) (by norm_num)
      simp only [pad6, List.length_append, List.length_replicate]
      omega
    have hpaddig : ∀ c ∈ pad6 (M % 1000000), isdigit c = true := by
      intro c hc
      simp only [pad6, List.mem_append, List.mem_replicate] at hc
      rcases hc with hc | hc
      · rw [hc.2]; decide
      · exact natDigits_digits _ c hc
    have hpadval : natOfDigits (pad6 (M % 1000000)) = (M % 1000000).toNat := by
      simp only [pad6, natOfDigits_replicate_zero, natOfDigits_natDigits]
    have hpadne : pad6 (M % 1000000) ≠ [] := by
      intro hc
      have := congrArg List.length hc
      rw [hpadlen] at this
      simp at this
    rw [hprint] at h ⊢
    have hfl := ParseValue_float (by simpa using h) (natDigits_digits _)
      (natDigits_ne_nil _) hpaddig hpadne hstop.1 hrne
    rw [natOfDigits_natDigits, hpadval, hpadlen] at hfl
    have hqval : (((M / 1000000).toNat : Nat) : Rat) +
        (((M % 1000000).toNat : Nat) : Rat) / (10 : Rat) ^ (6 : Nat) = q := by
      have hq6 : q = (M : Rat) / 1000000 := by
        rw [hM]
        field_simp
      rw [hq6]
      rw [show (((M / 1000000).toNat : Nat) : Rat) = ((M / 1000000 : Int) : Rat) by
        exact_mod_cast congrArg (fun z : Int => (z : Rat)) (Int.toNat_of_nonneg hA0)]
      rw [show (((M % 1000000).toNat : Nat) : Rat) = ((M % 1000000 : Int) : Rat) by
        exact_mod_cast congrArg (fun z : Int => (z : Rat)) (Int.toNat_of_nonneg hB0)]
      have hM' : (M : Rat) = 1000000 * ((M / 1000000 : Int) : Rat) + ((M % 1000000 : Int) : Rat) := by
        exact_mod_cast congrArg (fun z : Int => (z : Rat)) hdiv
      rw [hM']
      norm_num
      ring
    rw [hqval] at hfl
    rw [hfl]
    have hlen2 : (natDigits (M / 1000000).toNat ++ '.' :: pad6 (M % 1000000)).length =
        (natDigits (M / 1000000).toNat).length + 1 + 6 := by
      simp [hpadlen]
    rw [hlen2]

theorem headD_append_left {a : List Char} (ha : a ≠ []) (b : List Char) (d : Char) :
    (a ++ b).headD d = a.headD d := by
  cases a with
  | nil => exact absurd rfl ha
  | cons c t => rfl

theorem headD_digit_of_all {l : List Char} (hne : l ≠ [])
    (hall : ∀ c ∈ l, isdigit c = true) : isdigit (l.headD ' ') = true := by
  cases l with
  | nil => exact absurd rfl hne
  | cons c t => exact hall c (by simp)

theorem PrintPrimitive_ne_nil {v : PrimitiveValue} (hv : WfPrim v = true) :
    PrintPrimitive v ≠ [] := by
  cases v with
  | Number n =>
    obtain ⟨h0, _⟩ := wfprim_number hv
    simp only [PrintPrimitive, printLong, if_neg (not_lt.mpr h0)]
    exact natDigits_ne_nil _
  | Decimal q =>
    simp only [PrintPrimitive, printDouble]
    intro hc
    rcases List.append_eq_nil.mp hc with ⟨h1, _⟩
    simp [printLong] at h1
    split at h1
    · simp at h1
    · exact natDigits_ne_nil _ h1
  | String s => simp [PrintPrimitive]

theorem PrintPrimitive_head {v : PrimitiveValue} (hv : WfPrim v = true) :
    isdigit ((PrintPrimitive v).headD ' ') = true ∨
      (PrintPrimitive v).headD ' ' = quoteChar := by
  cases v with
  | Number n =>
    obtain ⟨h0, _⟩ := wfprim_number hv
    left
    simp only [PrintPrimitive, printLong, if_neg (not_lt.mpr h0)]
    exact headD_digit_of_all (natDigits_ne_nil _) (natDigits_digits _)
  | Decimal q =>
    left
    simp only [PrintPrimitive, printDouble]
    have hpos : 0 ≤ ((q * 1000000 + 1 / 2).floor / 1000000 : Int) := by
      have h0 := (wfprim_decimal hv).1
      have : (0 : Int) ≤ (q * 1000000 + 1 / 2).floor := by
        rw [(Rat.floor_def' _).trans Rat.floor_def.symm]
        positivity
      exact Int.ediv_nonneg this (by norm_num)
    simp only [printLong, if_neg (not_lt.mpr hpos)]
    rw [headD_append_left (natDigits_ne_nil _)]
    exact headD_digit_of_all (natDigits_ne_nil _) (natDigits_digits _)
  | String s => right; rfl

theorem PrintPrimitive_head_facts {v : PrimitiveValue} (hv : WfPrim v = true) :
    isspace ((PrintPrimitive v).headD ' ') = false ∧
      (PrintPrimitive v).headD ' ' ≠ ']' ∧ (PrintPrimitive v).headD ' ' ≠ ',' := by
  rcases PrintPrimitive_head hv with h | h
  · exact ⟨isspace_of_digit h, digit_ne h (by decide), digit_ne h (by decide)⟩
  · rw [h]
    refine ⟨by decide, by decide, by decide⟩

/-- Re-parsing the printed elements of an array: the `ParseVector` loop
recovers exactly the printed elements. -/
theorem ParseVectorLoop_print :
    ∀ (vs : List PrimitiveValue) (fuel : Nat) (acc : List PrimitiveValue)
      (inp r : List Char) (p : Nat),
      2 * vs.length + 1 ≤ fuel →
      (∀ v ∈ vs, WfPrim v = true) →
      inp.drop p = printElems vs ++ ']' :: r →
      ParseVectorLoop fuel ⟨inp, p⟩ true acc =
        some (1, acc ++ vs, ⟨inp, p + (printElems vs).length + 1⟩) := by
  intro vs
  induction vs with
  | nil =>
    intro fuel acc inp r p hfuel hwf h
    obtain ⟨f1, rfl⟩ : ∃ k, fuel = k + 1 := ⟨fuel - 1, by omega⟩
    simp only [printElems, List.nil_append] at h
    have hsp : consumeSpace ⟨inp, p⟩ = ⟨inp, p⟩ := by
      have := consumeSpace_spec (show inp.drop p = [] ++ ']' :: r from by simpa using h)
        (by simp) (by simp only [List.headD_cons]; decide) (by simp)
      simpa using this
    simp only [ParseVectorLoop, hsp, fgetc_cons h]
    simp [printElems]
  | cons v vs ih =>
    intro fuel acc inp r p hfuel hwf h
    obtain ⟨f1, rfl⟩ : ∃ k, fuel = k + 1 := ⟨fuel - 1, by omega⟩
    have hv := hwf v (by simp)
    obtain ⟨c0, t0, hpv⟩ : ∃ c0 t0, PrintPrimitive v = c0 :: t0 := by
      cases hpv : PrintPrimitive v with
      | nil => exact absurd hpv (PrintPrimitive_ne_nil hv)
      | cons c0 t0 => exact ⟨c0, t0, rfl⟩
    obtain ⟨hc0sp, hc0rb, hc0cm⟩ := PrintPrimitive_head_facts hv
    rw [hpv] at hc0sp hc0rb hc0cm
    simp only [List.headD_cons] at hc0sp hc0rb hc0cm
    cases vs with
    | nil =>
      simp only [printElems, List.nil_append] at h
      have hcons : inp.drop p = c0 :: (t0 ++ ']' :: r) := by
        rw [h, hpv]
        simp
      have hsp : consumeSpace ⟨inp, p⟩ = ⟨inp, p⟩ := by
        have := consumeSpace_spec (show inp.drop p = [] ++ c0 :: (t0 ++ ']' :: r)
            from by simpa using hcons)
          (by simp) (by simpa using hc0sp) (by simp)
        simpa using this
      have hpb : pushback ⟨inp, p + 1⟩ 1 = ⟨inp, p⟩ := by simp [pushback]
      have hval := ParseValue_print hv (show inp.drop p = PrintPrimitive v ++ ']' :: r
          from by rw [h])
        (⟨by simp only [List.headD_cons]; decide, by simp only [List.headD_cons]; decide⟩)
        (by simp)
      have hq : inp.drop (p + (PrintPrimitive v).length) = ']' :: r := by
        have := drop_split (show inp.drop p = PrintPrimitive v ++ ']' :: r from by rw [h])
        exact this
      obtain ⟨f2, rfl⟩ : ∃ k, f1 = k + 1 :=
        ⟨f1 - 1, by simp only [List.length_cons, List.length_nil] at hfuel; omega⟩
      have hsp2 : consumeSpace ⟨inp, p + (PrintPrimitive v).length⟩ =
          ⟨inp, p + (PrintPrimitive v).length⟩ := by
        have := consumeSpace_spec (show inp.drop (p + (PrintPrimitive v).length) =
            [] ++ ']' :: r from by simpa using hq)
          (by simp) (by simp only [List.headD_cons]; decide) (by simp)
        simpa using this
      simp only [ParseVectorLoop, hsp, fgetc_cons hcons, hc0rb, hc0cm, Bool.not_true,
        hpb, hval, hsp2, fgetc_cons hq]
      simp [printElems]
    | cons w vs' =>
      have hform : inp.drop p =
          PrintPrimitive v ++ ',' :: (printElems (w :: vs') ++ ']' :: r) := by
        rw [h]
        simp [printElems]
      have hcons : inp.drop p = c0 :: (t0 ++ ',' :: (printElems (w :: vs') ++ ']' :: r)) := by
        rw [hform, hpv]
        simp
      have hsp : consumeSpace ⟨inp, p⟩ = ⟨inp, p⟩ := by
        have := consumeSpace_spec (show inp.drop p =
            [] ++ c0 :: (t0 ++ ',' :: (printElems (w :: vs') ++ ']' :: r))
            from by simpa using hcons)
          (by simp) (by simpa using hc0sp) (by simp)
        simpa using this
      have hpb : pushback ⟨inp, p + 1⟩ 1 = ⟨inp, p⟩ := by simp [pushback]
      have hval := ParseValue_print hv hform
        (⟨by simp only [List.headD_cons]; decide, by simp only [List.headD_cons]; decide⟩)
        (by simp)
      have hq : inp.drop (p + (PrintPrimitive v).length) =
          ',' :: (printElems (w :: vs') ++ ']' :: r) := drop_split hform
      obtain ⟨f2, rfl⟩ : ∃ k, f1 = k + 1 :=
        ⟨f1 - 1, by simp only [List.length_cons] at hfuel; omega⟩
      have hsp2 : consumeSpace ⟨inp, p + (PrintPrimitive v).length⟩ =
          ⟨inp, p + (PrintPrimitive v).length⟩ := by
        have := consumeSpace_spec (show inp.drop (p + (PrintPrimitive v).length) =
            [] ++ ',' :: (printElems (w :: vs') ++ ']' :: r) from by simpa using hq)
          (by simp) (by simp only [List.headD_cons]; decide) (by simp)
        simpa using this
      have hdropc : inp.drop (p + (PrintPrimitive v).length + 1) =
          printElems (w :: vs') ++ ']' :: r := by
        have := drop_split (show inp.drop (p + (PrintPrimitive v).length) =
            [','] ++ (printElems (w :: vs') ++ ']' :: r) from by simpa using hq)
        simpa using this
      have hih := ih f2 (acc ++ [v]) inp r (p + (PrintPrimitive v).length + 1)
        (by simp only [List.length_cons] at hfuel ⊢; omega)
        (fun x hx => hwf x (by simp [hx])) hdropc
      simp only [ParseVectorLoop, hsp, fgetc_cons hcons, hc0rb, hc0cm, Bool.not_true,
        hpb, hval, hsp2, fgetc_cons hq]
      simp only [show ¬((1 : Int) < 0) by norm_num, if_false, ite_false,
        Option.toList_some]
      rw [hih]
      have harith : p + (PrintPrimitive v).length + 1 + (printElems (w :: vs')).length + 1 =
          p + (printElems (v :: w :: vs')).length + 1 := by
        simp [printElems]
        omega
      rw [harith]
      simp

theorem wfentry_key {e : ConfigEntry} (he : WfEntry e = true) :
    e.Key ≠ [] ∧ isalpha (e.Key.headD ' ') = true ∧
      ∀ c ∈ e.Key, (isalnum c || IsSpecialSymbol c) = true := by
  have hk : WfKey e.Key = true := by
    simp only [WfEntry, Bool.and_eq_true] at he
    exact he.1
  cases hkey : e.Key with
  | nil => rw [hkey] at hk; simp [WfKey] at hk
  | cons c cs =>
    rw [hkey] at hk
    simp only [WfKey, Bool.and_eq_true, List.all_eq_true] at hk
    refine ⟨by simp, by simpa using hk.1.1, ?_⟩
    intro d hd
    rcases List.mem_cons.mp hd with rfl | hd2
    · exact hk.1.2
    · simpa using hk.2 d hd2

theorem wfentry_val {e : ConfigEntry} (he : WfEntry e = true) :
    (∃ pv, e.Val = .Primitive pv ∧ e.Ty = PRIMITIVE_TYPE ∧ WfPrim pv = true) ∨
      (∃ a, e.Val = .Array a ∧ e.Ty = ARRAY_TYPE ∧ ∀ v ∈ a, WfPrim v = true) := by
  simp only [WfEntry, Bool.and_eq_true] at he
  cases hval : e.Val with
  | Primitive pv =>
    left
    refine ⟨pv, rfl, ?_, ?_⟩ <;>
      (have h2 := he.2; rw [hval] at h2; simp only [Bool.and_eq_true, decide_eq_true_eq] at h2)
    · exact h2.1
    · exact h2.2
  | Array a =>
    right
    refine ⟨a, rfl, ?_, ?_⟩ <;>
      (have h2 := he.2; rw [hval] at h2;
       simp only [Bool.and_eq_true, decide_eq_true_eq, List.all_eq_true] at h2)
    · exact h2.1
    · intro v hv; exact h2.2 v hv

theorem DumpVal_primitive {e : ConfigEntry} {pv : PrimitiveValue}
    (hval : e.Val = .Primitive pv) (hty : e.Ty = PRIMITIVE_TYPE) :
    DumpVal e = PrintPrimitive pv := by
  simp [DumpVal, hval, hty]

theorem DumpVal_array {e : ConfigEntry} {a : List PrimitiveValue}
    (hval : e.Val = .Array a) (hty : e.Ty = ARRAY_TYPE) :
    DumpVal e = PrintVector a := by
  simp [DumpVal, hval, hty, ARRAY_TYPE, PRIMITIVE_TYPE]

theorem DumpVal_facts {e : ConfigEntry} (he : WfEntry e = true) :
    DumpVal e ≠ [] ∧ isspace ((DumpVal e).headD ' ') = false := by
  rcases wfentry_val he with ⟨pv, hval, hty, hwf⟩ | ⟨a, hval, hty, hwf⟩
  · rw [DumpVal_primitive hval hty]
    exact ⟨PrintPrimitive_ne_nil hwf, (PrintPrimitive_head_facts hwf).1⟩
  · rw [DumpVal_array hval hty]
    refine ⟨by simp [PrintVector], by simp [PrintVector]; decide⟩

/-- Re-parsing one dumped statement line: `ParseCfg` recovers the entry
and stops on the line's trailing newline. -/
theorem ParseCfg_dump (fuel : Nat) (e : ConfigEntry) (he : WfEntry e = true)
    (hfuel : (match e.Val with | .Array a => 2 * a.length + 1 | _ => 0) ≤ fuel)
    {inp r : List Char} {p : Nat} (h : inp.drop p = DumpEntry e ++ r) :
    ParseCfg fuel ⟨inp, p⟩ =
      some (1, some e, ⟨inp, p + e.Key.length + 3 + (DumpVal e).length + 1⟩) := by
  obtain ⟨hkne, hkhead, hkall⟩ := wfentry_key he
  obtain ⟨kc, kt, hkey⟩ : ∃ kc kt, e.Key = kc :: kt := by
    cases hkey : e.Key with
    | nil => exact absurd hkey hkne
    | cons kc kt => exact ⟨kc, kt, rfl⟩
  have hkc : isalpha kc = true := by
    rw [hkey] at hkhead
    simpa using hkhead
  have hform : inp.drop p =
      e.Key ++ (' ' :: '=' :: ' ' :: (DumpVal e ++ ';' :: '\n' :: r)) := by
    rw [h, DumpEntry]
    simp
  have hconsform : inp.drop p =
      kc :: (kt ++ (' ' :: '=' :: ' ' :: (DumpVal e ++ ';' :: '\n' :: r))) := by
    rw [hform, hkey]
    simp
  have hblank : blankRun (inp.drop p) = 0 := by
    rw [hconsform]
    simp only [blankRun]
    rw [if_neg (by simp [isspace_of_alpha hkc])]
  have hkstr : ParseString ⟨inp, p⟩ = (some e.Key, ⟨inp, p + e.Key.length⟩) :=
    ParseString_spec hform hkne hkhead hkall
      (by simp only [List.headD_cons]; decide) (by simp)
  have hd1 : inp.drop (p + e.Key.length) =
      ' ' :: '=' :: ' ' :: (DumpVal e ++ ';' :: '\n' :: r) := drop_split hform
  have hsp1 : consumeSpace ⟨inp, p + e.Key.length⟩ = ⟨inp, p + e.Key.length + 1⟩ := by
    have := consumeSpace_spec (show inp.drop (p + e.Key.length) =
        [' '] ++ ('=' :: ' ' :: (DumpVal e ++ ';' :: '\n' :: r)) from by simpa using hd1)
      (by decide) (by simp only [List.headD_cons]; decide) (by simp)
    simpa using this
  have hd2 : inp.drop (p + e.Key.length + 1) =
      '=' :: (' ' :: (DumpVal e ++ ';' :: '\n' :: r)) := by
    have := drop_split (show inp.drop (p + e.Key.length) =
        [' '] ++ ('=' :: ' ' :: (DumpVal e ++ ';' :: '\n' :: r)) from by simpa using hd1)
    simpa using this
  have heq : expect ⟨inp, p + e.Key.length + 1⟩ '=' = (1, ⟨inp, p + e.Key.length + 2⟩) := by
    have := expect_ok hd2
    simpa using this
  have hd3 : inp.drop (p + e.Key.length + 2) =
      ' ' :: (DumpVal e ++ ';' :: '\n' :: r) := by
    have := drop_split (show inp.drop (p + e.Key.length + 1) =
        ['='] ++ (' ' :: (DumpVal e ++ ';' :: '\n' :: r)) from by simpa using hd2)
    simpa using this
  obtain ⟨hvne, hvsp⟩ := DumpVal_facts he
  have hvsp' : isspace ((DumpVal e).headD 'x') = false := by
    cases hdvc : DumpVal e with
    | nil => exact absurd hdvc hvne
    | cons c t =>
      rw [hdvc] at hvsp
      simpa using hvsp
  have hsp2 : consumeSpace ⟨inp, p + e.Key.length + 2⟩ =
      ⟨inp, p + e.Key.length + 3⟩ := by
    have := consumeSpace_spec (show inp.drop (p + e.Key.length + 2) =
        [' '] ++ (DumpVal e ++ ';' :: '\n' :: r) from by simpa using hd3)
      (by decide) (by rw [headD_append_left hvne]; exact hvsp') (by simp [hvne])
    simpa using this
  have hd4 : inp.drop (p + e.Key.length + 3) = DumpVal e ++ ';' :: '\n' :: r := by
    have := drop_split (show inp.drop (p + e.Key.length + 2) =
        [' '] ++ (DumpVal e ++ ';' :: '\n' :: r) from by simpa using hd3)
    simpa using this
  have hkane : kc ≠ '\n' := by
    intro hc; subst hc; simp [isalpha] at hkc
  have hkah : kc ≠ '#' := by
    refine ne_of_toNat_ne ?_
    rcases isalpha_toNat hkc with ⟨h1, _⟩ | ⟨h1, _⟩ <;>
      · have : ('#').toNat = 35 := by decide
        omega
  have hpb1 : pushback ⟨inp, p + 1⟩ 1 = ⟨inp, p⟩ := by simp [pushback]
  -- the value parse, by the shape of the entry
  rcases wfentry_val he with ⟨pv, hval, hty, hwf⟩ | ⟨a, hval, hty, hwf⟩
  · -- primitive entry
    have hdv := DumpVal_primitive hval hty
    obtain ⟨c1, t1, hpv⟩ : ∃ c1 t1, PrintPrimitive pv = c1 :: t1 := by
      cases hpv : PrintPrimitive pv with
      | nil => exact absurd hpv (PrintPrimitive_ne_nil hwf)
      | cons c1 t1 => exact ⟨c1, t1, rfl⟩
    have hc1 : c1 ≠ '[' := by
      rcases PrintPrimitive_head hwf with hh | hh <;> rw [hpv] at hh <;>
          simp only [List.headD_cons] at hh
      · exact digit_ne hh (by decide)
      · rw [hh]; decide
    have hd4' : inp.drop (p + e.Key.length + 3) =
        c1 :: (t1 ++ ';' :: '\n' :: r) := by
      rw [hd4, hdv, hpv]
      simp
    have hpbv : pushback ⟨inp, p + e.Key.length + 3 + 1⟩ 1 =
        ⟨inp, p + e.Key.length + 3⟩ := by simp [pushback]
    have hvp := ParseValue_print hwf (show inp.drop (p + e.Key.length + 3) =
        PrintPrimitive pv ++ ';' :: '\n' :: r from by rw [hd4, hdv])
      (⟨by simp only [List.headD_cons]; decide, by simp only [List.headD_cons]; decide⟩)
      (by simp)
    have hd5 : inp.drop (p + e.Key.length + 3 + (PrintPrimitive pv).length) =
        ';' :: '\n' :: r :=
      drop_split (show inp.drop (p + e.Key.length + 3) =
        PrintPrimitive pv ++ ';' :: '\n' :: r from by rw [hd4, hdv])
    have hsp3 : consumeSpace ⟨inp, p + e.Key.length + 3 + (PrintPrimitive pv).length⟩ =
        ⟨inp, p + e.Key.length + 3 + (PrintPrimitive pv).length⟩ := by
      have := consumeSpace_spec (show inp.drop
          (p + e.Key.length + 3 + (PrintPrimitive pv).length) =
          [] ++ ';' :: '\n' :: r from by simpa using hd5)
        (by simp) (by simp only [List.headD_cons]; decide) (by simp)
      simpa using this
    have hsemi : expect ⟨inp, p + e.Key.length + 3 + (PrintPrimitive pv).length⟩ ';' =
        (1, ⟨inp, p + e.Key.length + 3 + (PrintPrimitive pv).length + 1⟩) :=
      expect_ok hd5
    have hline : ParseConfigLine fuel ⟨inp, p⟩ =
        some (1, some e, ⟨inp, p + e.Key.length + 3 + (PrintPrimitive pv).length + 1⟩) := by
      simp only [ParseConfigLine, hkstr, hsp1, heq, hsp2]
      rw [if_neg (by norm_num)]
      rw [fgetc_cons hd4']
      simp only
      rw [if_neg hc1]
      simp only [hpbv, hvp, Option.some_bind, hsp3, hsemi]
      rw [if_neg (by norm_num)]
      have hee : e = ⟨e.Key, PRIMITIVE_TYPE, Value.Primitive pv⟩ := by
        cases e
        simp only at hval hty
        simp [hval, hty]
      norm_num
      exact hee.symm
    simp only [ParseCfg, File.rem, hblank, Nat.add_zero, fgetc_cons hconsform, hkane,
      hkah, hkc]
    rw [hpb1, hline]
    simp [hdv]
  · -- array entry
    have hdv := DumpVal_array hval hty
    have hd4' : inp.drop (p + e.Key.length + 3) =
        '[' :: (printElems a ++ ']' :: ';' :: '\n' :: r) := by
      rw [hd4, hdv]
      simp [PrintVector]
    have hd5 : inp.drop (p + e.Key.length + 3 + 1) =
        printElems a ++ ']' :: ';' :: '\n' :: r := by
      have := drop_split (show inp.drop (p + e.Key.length + 3) =
          ['['] ++ (printElems a ++ ']' :: ';' :: '\n' :: r) from by simpa using hd4')
      simpa using this
    have hvec := ParseVectorLoop_print a fuel [] inp (';' :: '\n' :: r)
      (p + e.Key.length + 3 + 1) (by rw [hval] at hfuel; simpa using hfuel) hwf hd5
    have hd6 : inp.drop (p + e.Key.length + 3 + 1 + (printElems a).length + 1) =
        ';' :: '\n' :: r := by
      have h1 : inp.drop (p + e.Key.length + 3 + 1 + (printElems a).length) =
          ']' :: ';' :: '\n' :: r := drop_split hd5
      have := drop_split (show inp.drop (p + e.Key.length + 3 + 1 + (printElems a).length) =
          [']'] ++ (';' :: '\n' :: r) from by simpa using h1)
      simpa using this
    have hsp3 : consumeSpace ⟨inp, p + e.Key.length + 3 + 1 + (printElems a).length + 1⟩ =
        ⟨inp, p + e.Key.length + 3 + 1 + (printElems a).length + 1⟩ := by
      have := consumeSpace_spec (show inp.drop
          (p + e.Key.length + 3 + 1 + (printElems a).length + 1) =
          [] ++ ';' :: '\n' :: r from by simpa using hd6)
        (by simp) (by simp only [List.headD_cons]; decide) (by simp)
      simpa using this
    have hsemi : expect ⟨inp, p + e.Key.length + 3 + 1 + (printElems a).length + 1⟩ ';' =
        (1, ⟨inp, p + e.Key.length + 3 + 1 + (printElems a).length + 1 + 1⟩) :=
      expect_ok hd6
    have hline : ParseConfigLine fuel ⟨inp, p⟩ =
        some (1, some e,
          ⟨inp, p + e.Key.length + 3 + 1 + (printElems a).length + 1 + 1⟩) := by
      simp only [ParseConfigLine, hkstr, hsp1, heq, hsp2]
      rw [if_neg (show ¬((1 : Int) < 0) by norm_num)]
      rw [fgetc_cons hd4']
      simp only
      simp only [if_true]
      simp only [ParseVector, hvec, Option.map_some', Option.some_bind, List.nil_append,
        hsp3, hsemi]
      have hee : e = ⟨e.Key, ARRAY_TYPE, Value.Array a⟩ := by
        cases e
        simp only at hval hty
        simp [hval, hty]
      norm_num
      exact hee.symm
    simp only [ParseCfg, File.rem, hblank, Nat.add_zero, fgetc_cons hconsform]
    rw [if_neg hkane, if_neg hkah, if_pos hkc]
    rw [hpb1, hline]
    have hlen : (DumpVal e).length = (printElems a).length + 2 := by
      rw [hdv]
      simp [PrintVector]
    rw [hlen]
    simp only [Option.map_some']
    rw [show p + e.Key.length + 3 + 1 + (printElems a).length + 1 + 1 =
      p + e.Key.length + 3 + ((printElems a).length + 2) + 1 by omega]
    norm_num

theorem needFuel_pos (es : List ConfigEntry) : 1 ≤ needFuel es := by
  cases es with
  | nil => simp [needFuel]
  | cons e es => simp only [needFuel]; omega

/-- Reparsing the dump of a list of well-formed entries, preceded by any
run of whitespace, appends exactly those entries (in order) and counts
them. -/
theorem ParseConfigLoop_dump :
    ∀ (es : List ConfigEntry) (fuel : Nat) (acc : List ConfigEntry) (cnt : Nat)
      (ws inp : List Char) (p : Nat),
      needFuel es ≤ fuel →
      (∀ c ∈ ws, isspace c = true) →
      (∀ e ∈ es, WfEntry e = true) →
      inp.drop p = ws ++ (es.map DumpEntry).flatten →
      ParseConfigLoop fuel ⟨inp, p⟩ acc cnt =
        some (1, some ⟨cnt + es.length, acc ++ es⟩) := by
  intro es
  induction es with
  | nil =>
    intro fuel acc cnt ws inp p hfuel hws _ h
    have h0 : ParseConfigLoop fuel ⟨inp, p⟩ acc cnt = some (1, some ⟨cnt, acc⟩) := by
      refine ParseConfigLoop_allspace fuel _ _ _ (by simp [needFuel] at hfuel; omega) ?_
      intro c hc
      apply hws
      simp only [File.rem] at hc
      rw [h] at hc
      simpa using hc
    simpa using h0
  | cons e es ih =>
    intro fuel acc cnt ws inp p hfuel hws hwfs h
    simp only [needFuel] at hfuel
    obtain ⟨F, rfl⟩ : ∃ k, fuel = k + 1 := ⟨fuel - 1, by omega⟩
    have he := hwfs e (by simp)
    obtain ⟨hkne, hkhead, _⟩ := wfentry_key he
    obtain ⟨kc, kt, hkey⟩ : ∃ kc kt, e.Key = kc :: kt := by
      cases hkey : e.Key with
      | nil => exact absurd hkey hkne
      | cons kc kt => exact ⟨kc, kt, rfl⟩
    have hkc : isalpha kc = true := by
      rw [hkey] at hkhead
      simpa using hkhead
    have hform : inp.drop p = ws ++ (DumpEntry e ++ (es.map DumpEntry).flatten) := by
      rw [h]
      simp
    have hdrop1 : inp.drop (p + ws.length) =
        DumpEntry e ++ (es.map DumpEntry).flatten := drop_split hform
    obtain ⟨t, ht⟩ : ∃ t, inp.drop (p + ws.length) = kc :: t := by
      have h0 : inp.drop (p + ws.length) =
          kc :: (kt ++ (' ' :: '=' :: ' ' :: (DumpVal e ++ [';', '\n']) ++
            (es.map DumpEntry).flatten)) := by
        rw [hdrop1, DumpEntry, hkey]
        simp
      exact ⟨_, h0⟩
    have hrun : spaceRun (inp.drop p) = ws.length := by
      have hws2 : inp.drop p = ws ++ (kc :: t) := by
        rw [hform, ← hdrop1, ht]
      rw [hws2]
      refine spaceRun_append hws ?_
      simp only [List.headD_cons]
      simpa using isspace_of_alpha hkc
    have hfg : fgetc ⟨inp, p + ws.length⟩ = (some kc, ⟨inp, p + ws.length + 1⟩) :=
      fgetc_cons ht
    have hpb : pushback ⟨inp, p + ws.length + 1⟩ 1 = ⟨inp, p + ws.length⟩ := by
      simp [pushback]
    have hcfg := ParseCfg_dump F e he (by omega) hdrop1
    have hnl : inp.drop (p + ws.length + e.Key.length + 3 + (DumpVal e).length + 1) =
        ['\n'] ++ (es.map DumpEntry).flatten := by
      have hsplit : inp.drop (p + ws.length) =
          (e.Key ++ ' ' :: '=' :: ' ' :: (DumpVal e ++ [';'])) ++
            ('\n' :: (es.map DumpEntry).flatten) := by
        rw [hdrop1, DumpEntry]
        simp
      have h2 := drop_split hsplit
      have hlen : (e.Key ++ ' ' :: '=' :: ' ' :: (DumpVal e ++ [';'])).length =
          e.Key.length + 3 + (DumpVal e).length + 1 := by
        simp
        omega
      rw [hlen] at h2
      rw [show p + ws.length + e.Key.length + 3 + (DumpVal e).length + 1 =
        p + ws.length + (e.Key.length + 3 + (DumpVal e).length + 1) by omega]
      simpa using h2
    have hrec := ih F (acc ++ [e]) (cnt + 1) ['\n'] inp
      (p + ws.length + e.Key.length + 3 + (DumpVal e).length + 1)
      (by omega) (by decide) (fun e' he' => hwfs e' (by simp [he'])) hnl
    show ParseConfigLoop (F + 1) ⟨inp, p⟩ acc cnt = _
    simp only [ParseConfigLoop, File.rem, hrun, hfg, hpb, hcfg]
    rw [if_neg (by norm_num)]
    simp only [Option.toList_some, Option.isSome_some, if_true]
    rw [hrec]
    have hc : cnt + 1 + es.length = cnt + (e :: es).length := by
      simp only [List.length_cons]
      omega
    simp [hc]

/-- **C4** (amended).  The claimed round trip does not hold for every
successfully parsed document: `%lf` prints exactly six fractional
digits, so a float whose exact value needs more precision dumps to a
different value (see the counterexample).  What does hold: for every
well-formed document — accurate entry count, quote-free newline-free
strings, in-range integers, and decimals exact at six fractional
digits — serializing with `DumpConfig` and re-parsing yields the same
document (same keys, kinds, values, and order). -/
theorem claim_C4_amended (c : Config) (hwf : WfConfig c = true) (fuel : Nat)
    (hfuel : needFuel c.Items ≤ fuel) :
    ParseConfig fuel (DumpConfig c) = some (1, some c) := by
  obtain ⟨E, I⟩ := c
  simp only [WfConfig, Bool.and_eq_true, decide_eq_true_eq, List.all_eq_true] at hwf
  obtain ⟨hcnt, hall⟩ := hwf
  have hd : DumpConfig ⟨E, I⟩ = (I.map DumpEntry).flatten := by
    simp [DumpConfig, hcnt]
  have h0 := ParseConfigLoop_dump I fuel [] 0 [] (DumpConfig ⟨E, I⟩) 0 hfuel
    (by simp) hall (by simp [hd])
  simp only [ParseConfig]
  rw [h0]
  simp [hcnt]

/-- Witness for the amended claim C4: a two-entry document (an integer
and a two-element array) dumps and re-parses to itself. -/
theorem claim_C4_amended_witness :
    WfConfig ⟨2, [⟨['n'], PRIMITIVE_TYPE, .Primitive (.Number 42)⟩,
        ⟨['a'], ARRAY_TYPE, .Array [.Number 1, .Number 2]⟩]⟩ = true ∧
    needFuel [⟨['n'], PRIMITIVE_TYPE, .Primitive (.Number 42)⟩,
        ⟨['a'], ARRAY_TYPE, .Array [.Number 1, .Number 2]⟩] ≤ 9 ∧
    ParseConfig 9 (DumpConfig ⟨2, [⟨['n'], PRIMITIVE_TYPE, .Primitive (.Number 42)⟩,
        ⟨['a'], ARRAY_TYPE, .Array [.Number 1, .Number 2]⟩]⟩) =
      some (1, some ⟨2, [⟨['n'], PRIMITIVE_TYPE, .Primitive (.Number 42)⟩,
        ⟨['a'], ARRAY_TYPE, .Array [.Number 1, .Number 2]⟩]⟩) :=
  ⟨by decide, by decide, claim_C4_amended _ (by decide) 9 (by decide)⟩

set_option maxHeartbeats 1000000 in
/-- The claimed round trip fails on a parsed document: `k = 0.1234567;`
parses successfully (no `'` in any string, no arrays at all), but `%lf`
prints only six fractional digits, so the dump reads `k = 0.123457;`
and re-parses to a document with a different value. -/
theorem claim_C4_counterexample :
    ParseConfig 3 ['k', ' ', '=', ' ', '0', '.', '1', '2', '3', '4', '5', '6', '7', ';'] =
      some (1, some ⟨1, [⟨['k'], PRIMITIVE_TYPE,
        .Primitive (.Decimal (1234567 / 10000000))⟩]⟩) ∧
    DumpConfig ⟨1, [⟨['k'], PRIMITIVE_TYPE, .Primitive (.Decimal (1234567 / 10000000))⟩]⟩ =
      ['k', ' ', '=', ' ', '0', '.', '1', '2', '3', '4', '5', '7', ';', '\n'] ∧
    ParseConfig 3 (DumpConfig ⟨1, [⟨['k'], PRIMITIVE_TYPE,
        .Primitive (.Decimal (1234567 / 10000000))⟩]⟩) =
      some (1, some ⟨1, [⟨['k'], PRIMITIVE_TYPE,
        .Primitive (.Decimal (123457 / 1000000))⟩]⟩) ∧
    (⟨1, [⟨['k'], PRIMITIVE_TYPE, .Primitive (.Decimal (123457 / 1000000))⟩]⟩ : Config) ≠
      ⟨1, [⟨['k'], PRIMITIVE_TYPE, .Primitive (.Decimal (1234567 / 10000000))⟩]⟩ := by
  have hfc : ∀ q : Rat, q.floor = ⌊q⌋ := fun q =>
    (Rat.floor_def' q).trans Rat.floor_def.symm
  have hfl0 : ((1234567 / 10000000 : Rat) * 1000000 + 1 / 2).floor = 123457 := by
    rw [hfc]
    have h1 : ((1234567 / 10000000 : Rat) * 1000000 + 1 / 2) = 1234572 / 10 := by
      norm_num
    rw [h1]
    apply Int.floor_eq_iff.mpr
    constructor <;> norm_num
  have hfl1 : ((123457 / 1000000 : Rat) * 1000000 + 1 / 2).floor = 123457 := by
    rw [hfc]
    have h1 : ((123457 / 1000000 : Rat) * 1000000 + 1 / 2) = 246915 / 2 := by
      norm_num
    rw [h1]
    apply Int.floor_eq_iff.mpr
    constructor <;> norm_num
  have hpd0 : printDouble (1234567 / 10000000 : Rat) =
      ['0', '.', '1', '2', '3', '4', '5', '7'] := by
    simp only [printDouble, hfl0]
    decide
  have hpd1 : printDouble (123457 / 1000000 : Rat) =
      ['0', '.', '1', '2', '3', '4', '5', '7'] := by
    simp only [printDouble, hfl1]
    decide
  have hdump : DumpConfig ⟨1, [⟨['k'], PRIMITIVE_TYPE,
      .Primitive (.Decimal (1234567 / 10000000))⟩]⟩ =
      ['k', ' ', '=', ' ', '0', '.', '1', '2', '3', '4', '5', '7', ';', '\n'] := by
    simp [DumpConfig, DumpEntry, DumpVal, PrintPrimitive, hpd0]
  refine ⟨?_, hdump, ?_, ?_⟩
  · -- parse of the original statement
    obtain ⟨Q, hQ⟩ : ∃ Q : Rat, Q = (1234567 / 10000000 : Rat) := ⟨_, rfl⟩
    rw [← hQ]
    set inp : List Char :=
      ['k', ' ', '=', ' ', '0', '.', '1', '2', '3', '4', '5', '6', '7', ';'] with hinpdef
    have hdrop0 : inp.drop 0 =
        'k' :: [' ', '=', ' ', '0', '.', '1', '2', '3', '4', '5', '6', '7', ';'] := by
      rw [hinpdef]; rfl
    have hkey : ParseString ⟨inp, 0⟩ = (some ['k'], ⟨inp, 1⟩) := by
      rw [hinpdef]; decide
    have hsp1 : consumeSpace ⟨inp, 1⟩ = ⟨inp, 2⟩ := by
      rw [hinpdef]; decide
    have heq : expect ⟨inp, 2⟩ '=' = (1, ⟨inp, 3⟩) := by
      rw [hinpdef]; decide
    have hsp2 : consumeSpace ⟨inp, 3⟩ = ⟨inp, 4⟩ := by
      rw [hinpdef]; decide
    have hdrop4 : inp.drop 4 =
        ['0'] ++ '.' :: ['1', '2', '3', '4', '5', '6', '7'] ++ [';'] := by
      rw [hinpdef]; rfl
    have hv0 := ParseValue_float hdrop4 (by decide) (by decide) (by decide) (by decide)
      (by decide) (by decide)
    have hq : ((natOfDigits ['0'] : Nat) : Rat) +
        ((natOfDigits ['1', '2', '3', '4', '5', '6', '7'] : Nat) : Rat) /
          (10 : Rat) ^ (['1', '2', '3', '4', '5', '6', '7'] : List Char).length =
        Q := by
      rw [hQ]
      have h1 : natOfDigits ['0'] = 0 := by decide
      have h2 : natOfDigits ['1', '2', '3', '4', '5', '6', '7'] = 1234567 := by decide
      have h3 : (['1', '2', '3', '4', '5', '6', '7'] : List Char).length = 7 := by decide
      rw [h1, h2, h3]
      norm_num
    have hpos : 4 + ((['0'] : List Char).length + 1 +
        (['1', '2', '3', '4', '5', '6', '7'] : List Char).length) = 13 := by decide
    rw [hq, hpos] at hv0
    have hdrop4c : inp.drop 4 = '0' :: ['.', '1', '2', '3', '4', '5', '6', '7', ';'] := by
      rw [hinpdef]; rfl
    have hpb5 : pushback ⟨inp, 5⟩ 1 = ⟨inp, 4⟩ := by simp [pushback]
    have hsp3 : consumeSpace ⟨inp, 13⟩ = ⟨inp, 13⟩ := by
      rw [hinpdef]; decide
    have hsemi : expect ⟨inp, 13⟩ ';' = (1, ⟨inp, 14⟩) := by
      rw [hinpdef]; decide
    have hline : ParseConfigLine 2 ⟨inp, 0⟩ =
        some (1, some ⟨['k'], PRIMITIVE_TYPE, .Primitive (.Decimal Q)⟩, ⟨inp, 14⟩) := by
      simp only [ParseConfigLine, hkey, hsp1, heq, hsp2]
      rw [if_neg (by norm_num)]
      rw [fgetc_cons hdrop4c]
      simp only
      rw [if_neg (show ('0' : Char) ≠ '[' by decide)]
      simp only [hpb5, hv0, Option.some_bind, hsp3, hsemi]
      rw [if_neg (by norm_num)]
      norm_num
    have hblank : blankRun inp = 0 := by
      rw [hinpdef]; decide
    have hpb1 : pushback ⟨inp, 0 + 1⟩ 1 = ⟨inp, 0⟩ := by simp [pushback]
    have hcfg : ParseCfg 2 ⟨inp, 0⟩ =
        some (1, some ⟨['k'], PRIMITIVE_TYPE, .Primitive (.Decimal Q)⟩, ⟨inp, 14⟩) := by
      simp only [ParseCfg, File.rem, List.drop_zero]
      rw [hblank]
      rw [fgetc_cons hdrop0]
      simp only
      rw [if_neg (by decide), if_neg (by decide), if_pos (by decide)]
      rw [hpb1, hline]
      simp
    have hrem14 : List.drop 14 inp = [] := by
      rw [hinpdef]; rfl
    have hloop2 : ParseConfigLoop 2 ⟨inp, 14⟩
        [⟨['k'], PRIMITIVE_TYPE, .Primitive (.Decimal Q)⟩] 1 =
        some (1, some ⟨1, [⟨['k'], PRIMITIVE_TYPE, .Primitive (.Decimal Q)⟩]⟩) := by
      refine ParseConfigLoop_allspace 2 _ _ _ (by omega) ?_
      simp only [File.rem]
      rw [hrem14]
      simp
    show ParseConfigLoop 3 ⟨inp, 0⟩ [] 0 = _
    simp only [ParseConfigLoop, File.rem, List.drop_zero]
    rw [spaceRun_stop (show isspace (inp.headD 'x') = false from by rw [hinpdef]; decide)]
    rw [fgetc_cons hdrop0]
    simp only [hpb1, hcfg]
    rw [if_neg (by norm_num)]
    simpa using hloop2
  · -- reparse of the dump
    have hde1 : DumpEntry ⟨['k'], PRIMITIVE_TYPE,
        .Primitive (.Decimal (123457 / 1000000))⟩ =
        ['k', ' ', '=', ' ', '0', '.', '1', '2', '3', '4', '5', '7', ';', '\n'] := by
      simp [DumpEntry, DumpVal, PrintPrimitive, hpd1]
    have hwfe1 : WfEntry ⟨['k'], PRIMITIVE_TYPE,
        .Primitive (.Decimal (123457 / 1000000))⟩ = true := by
      simp only [WfEntry, WfKey, WfPrim, Bool.and_eq_true, decide_eq_true_eq]
      refine ⟨by decide, trivial, by norm_num, ?_⟩
      have h1 : ((123457 / 1000000 : Rat) * 1000000) = 123457 := by norm_num
      rw [h1]
      rfl
    have hC := ParseConfigLoop_dump
      [⟨['k'], PRIMITIVE_TYPE, .Primitive (.Decimal (123457 / 1000000))⟩] 3 [] 0 []
      (DumpConfig ⟨1, [⟨['k'], PRIMITIVE_TYPE,
        .Primitive (.Decimal (1234567 / 10000000))⟩]⟩) 0
      (by decide) (by simp) (by simpa using hwfe1)
      (by simp [hdump, hde1])
    simp only [ParseConfig]
    rw [hC]
    simp
  · -- the two documents differ
    have hne : (123457 / 1000000 : Rat) ≠ 1234567 / 10000000 := by norm_num
    simp only [ne_eq, Config.mk.injEq, List.cons.injEq, ConfigEntry.mk.injEq,
      Value.Primitive.injEq, PrimitiveValue.Decimal.injEq, and_true, true_and,
      not_and]
    intro h
    exact absurd h hne
